import Mathlib

/-!
Verification of the JSON-to-JSON template transformer.

The definitions below are a shallow embedding of the two source files
`src/lib.rs` (the `transform` entry point) and `src/transformer.rs`
(key cleaning, path resolution, substitution, and the array-conversion
pass).  JSON values are modelled by the inductive `Value`; the
`serde_json` map is modelled as an insertion-ordered association list
(per the documented value model of the system: objects preserve
insertion order, keys are unique).  Rust functions returning
`anyhow::Result` are modelled with `Except TError`; each `anyhow!` site
is mapped to a `TError` constructor carrying the data that the message
interpolates (field or key names).  The two `LinkedList` scratch stacks
(`visited`, `array_lens`) are only ever used through `push_back` /
`pop_back`, i.e. as LIFO stacks, so they are modelled as Lean lists with
`cons` as push and the head as the top of the stack.
-/

/-- The JSON value tree (`serde_json::Value`): null, booleans, numbers,
strings, ordered arrays and insertion-ordered objects. -/
inductive Value where
  | null : Value
  | bool (b : Bool) : Value
  | num (n : Int) : Value
  | str (s : String) : Value
  | arr (elems : List Value) : Value
  | obj (fields : List (String × Value)) : Value

deriving instance DecidableEq for Except

/-- The failure modes of the transformer, one constructor per distinct
`anyhow!` message produced by `src/lib.rs` and `src/transformer.rs`.
Constructors carry the names that the corresponding message
interpolates. -/
inductive TError where
  /-- lib.rs: output template top level is not an array. -/
  | structuralNotArray : TError
  /-- lib.rs: a template array element is not an object. -/
  | structuralNotObject : TError
  /-- lib.rs: a template element object has no keys. -/
  | structuralNoKeys : TError
  /-- transformer.rs `traverse_mut`: a template leaf is not a string. -/
  | malformedTemplate : TError
  /-- transformer.rs `clean_key`: bad array-convertible key format. -/
  | malformedKey (key : String) : TError
  /-- transformer.rs `resolve_output_field_value`: missing input field. -/
  | fieldNotFound (field : String) : TError
  /-- transformer.rs `process_array_convertible_objs`: an
  array-convertible object was detected but no spread array found. -/
  | missingSpreadArray (key : String) : TError
  /-- transformer.rs `split_obj_to_array`: the relative spread path
  cannot be located inside a copy. -/
  | splitPathMismatch : TError
  /-- transformer.rs: any other pointer-navigation or stack failure,
  tagged by site. -/
  | corruption (site : String) : TError
deriving DecidableEq, Repr

/-- The single-quote character, used for hard-coded literal leaves. -/
def sqc : Char := Char.ofNat 39

/-- Rust `str::starts_with(char)`. -/
def startsWithCh (s : String) (c : Char) : Bool :=
  match s.data with
  | [] => false
  | a :: _ => a == c

/-- Rust `str::ends_with(char)`. -/
def endsWithCh (s : String) (c : Char) : Bool :=
  match s.data.getLast? with
  | some d => d == c
  | none => false

/-- Rust `str::strip_prefix(char)`. -/
def stripPreCh (s : String) (c : Char) : Option String :=
  match s.data with
  | a :: t => if a == c then some (String.mk t) else none
  | [] => none

/-- Rust `str::strip_suffix(char)`. -/
def stripSufCh (s : String) (c : Char) : Option String :=
  match s.data.getLast? with
  | some d => if d == c then some (String.mk s.data.dropLast) else none
  | none => none

/-- Rust `str::strip_prefix(&str)`. -/
def stripPreStr (s p : String) : Option String :=
  if p.data.isPrefixOf s.data then some (String.mk (s.data.drop p.data.length))
  else none

/-- Substring containment on character lists (Rust `str::contains`). -/
def hasSubL (pat : List Char) : List Char → Bool
  | [] => pat.isPrefixOf []
  | c :: t => pat.isPrefixOf (c :: t) || hasSubL pat t

/-- Rust `str::contains(&str)`. -/
def hasSub (s p : String) : Bool := hasSubL p.data s.data

/-- Split around the first occurrence of a pattern
(Rust `str::split_once`), on character lists. -/
def splitOnceL (pat : List Char) : List Char → Option (List Char × List Char)
  | [] => if pat.isPrefixOf [] then some ([], []) else none
  | c :: t =>
    if pat.isPrefixOf (c :: t) then some ([], (c :: t).drop pat.length)
    else (splitOnceL pat t).map (fun q => (c :: q.1, q.2))

/-- Rust `str::split_once(&str)`. -/
def splitOnceStr (s p : String) : Option (String × String) :=
  (splitOnceL p.data s.data).map (fun q => (String.mk q.1, String.mk q.2))

/-- Split a character list on a separator character; like Rust
`str::split(char)`, always returns at least one (possibly empty) part. -/
def splitCh (sep : Char) : List Char → List (List Char)
  | [] => [[]]
  | c :: t =>
    if c == sep then [] :: splitCh sep t
    else
      match splitCh sep t with
      | [] => [[c]]
      | h :: r => (c :: h) :: r

/-- Rust `str::split(char)` collected into a vector of strings. -/
def strSplit (s : String) (sep : Char) : List String :=
  (splitCh sep s.data).map String.mk

/-- Replace every (left-to-right, non-overlapping) occurrence of the
two-character pattern `p1 p2` by the single character `r`; this models
Rust `str::replace` for the two-character JSON-pointer escape patterns. -/
def replace2 (p1 p2 r : Char) : List Char → List Char
  | [] => []
  | [c] => [c]
  | c1 :: c2 :: t =>
    if c1 == p1 && c2 == p2 then r :: replace2 p1 p2 r t
    else c1 :: replace2 p1 p2 r (c2 :: t)

/-- Association-list lookup (`serde_json::Map::get`). -/
def lookupKV : List (String × Value) → String → Option Value
  | [], _ => none
  | (k, v) :: rest, key => if k == key then some v else lookupKV rest key

/-- Does the object contain the key? -/
def containsKV (m : List (String × Value)) (key : String) : Bool :=
  (lookupKV m key).isSome

/-- Replace the value stored at an existing key, keeping its position. -/
def replaceKV : List (String × Value) → String → Value → List (String × Value)
  | [], _, _ => []
  | (k, w) :: rest, key, v =>
    if k == key then (k, v) :: rest else (k, w) :: replaceKV rest key v

/-- `serde_json::Map::insert`: replace in place if the key exists,
append otherwise (insertion-ordered object model). -/
def insertKV (m : List (String × Value)) (key : String) (v : Value) :
    List (String × Value) :=
  if containsKV m key then replaceKV m key v else m ++ [(key, v)]

/-- `serde_json::Map::remove`: drop the entry if present
(`none` when the key is absent, mirroring `Option::None`). -/
def removeKV : List (String × Value) → String → Option (List (String × Value))
  | [], _ => none
  | (k, w) :: rest, key =>
    if k == key then some rest
    else (removeKV rest key).map (fun m => (k, w) :: m)

/-- Unescape one JSON-pointer token:
`token.replace("~1", "/").replace("~0", "~")`. -/
def unescapeTok (t : String) : String :=
  String.mk (replace2 '~' '0' '~' (replace2 '~' '1' '/' t.data))

/-- `serde_json`'s `parse_index`: array indices in pointers must be
plain decimal with no leading `+` and no superfluous leading zero. -/
def parse_index (s : String) : Option Nat :=
  match s.data with
  | [] => none
  | c :: cs =>
    if c == '+' then none
    else if c == '0' && cs != [] then none
    else if (c :: cs).all (fun d => d.isDigit) then
      some ((c :: cs).foldl (fun a d => 10 * a + (d.toNat - 48)) 0)
    else none

/-- Tokenize a JSON pointer: empty pointer addresses the whole document,
otherwise it must start with `/`; tokens are the `/`-separated parts
minus the leading empty one, each unescaped. -/
def ptrTokens (p : String) : Option (List String) :=
  if p = "" then some []
  else if startsWithCh p '/' then
    some (((strSplit p '/').drop 1).map unescapeTok)
  else none

/-- Navigate a token list (`serde_json::Value::pointer` after
tokenization). -/
def getTokens : Value → List String → Option Value
  | v, [] => some v
  | .obj m, t :: rest => (lookupKV m t).bind (fun c => getTokens c rest)
  | .arr l, t :: rest =>
    (parse_index t).bind (fun i => (l.get? i).bind (fun c => getTokens c rest))
  | _, _ :: _ => none

/-- `serde_json::Value::pointer`. -/
def getPointer (v : Value) (p : String) : Option Value :=
  (ptrTokens p).bind (getTokens v)

/-- Write through a pointer (`Value::pointer_mut` followed by
assignment), rebuilding the tree along the navigated path. -/
def setTokens : Value → List String → Value → Option Value
  | _, [], newV => some newV
  | .obj m, t :: rest, newV =>
    (lookupKV m t).bind fun c =>
      (setTokens c rest newV).map fun c2 => Value.obj (replaceKV m t c2)
  | .arr l, t :: rest, newV =>
    (parse_index t).bind fun i =>
      (l.get? i).bind fun c =>
        (setTokens c rest newV).map fun c2 => Value.arr (l.set i c2)
  | _, _ :: _, _ => none

/-- `serde_json::Value::pointer_mut` + assignment at a pointer string. -/
def setPointer (v : Value) (p : String) (newV : Value) : Option Value :=
  (ptrTokens p).bind (fun toks => setTokens v toks newV)

/-- Navigate to a pointer and apply a fallible in-place update there
(`pointer_mut` handing out `&mut`); `none` means navigation failed. -/
def atPointerModify (f : Value → Except TError Value) :
    Value → List String → Option (Except TError Value)
  | v, [] => some (f v)
  | .obj m, t :: rest =>
    (lookupKV m t).bind fun c =>
      (atPointerModify f c rest).map
        (fun r => r.map (fun c2 => Value.obj (replaceKV m t c2)))
  | .arr l, t :: rest =>
    (parse_index t).bind fun i =>
      (l.get? i).bind fun c =>
        (atPointerModify f c rest).map
          (fun r => r.map (fun c2 => Value.arr (l.set i c2)))
  | _, _ :: _ => none

/-- transformer.rs `is_obj_to_be_converted_to_array`: true iff the key
is wrapped in square brackets. -/
def is_obj_to_be_converted_to_array (obj_name : String) : Bool :=
  startsWithCh obj_name '[' && endsWithCh obj_name ']'

/-- transformer.rs `is_to_be_spread_array`: true iff the key contains
the substring `...`. -/
def is_to_be_spread_array (array_name : String) : Bool :=
  hasSub array_name "..."

/-- transformer.rs `clean_key`: strip the square brackets when the key
is array-convertible (falling back to the whole key if the suffix strip
fails, re-raising the bad-format error only when the `[` strip fails),
then, when the key contains `...`, replace the result by the original
key with a leading `...` stripped (or the original key itself when
`...` is not a prefix). -/
def clean_key (key : String) : Except TError String :=
  let afterConv : Except TError String :=
    if is_obj_to_be_converted_to_array key then
      match stripPreCh key '[' with
      | some s => .ok ((stripSufCh s ']').getD key)
      | none => .error (.malformedKey key)
    else .ok key
  match afterConv with
  | .error e => .error e
  | .ok ck =>
    .ok (if is_to_be_spread_array key then (stripPreStr key "...").getD key else ck)

/-- The `try_fold` inside transformer.rs `clean_path`: clean each
decorated segment and rejoin with `/`. -/
def cleanFold : List String → String → Except TError String
  | [], acc => .ok acc
  | k :: rest, acc =>
    match
      (if is_obj_to_be_converted_to_array k || is_to_be_spread_array k then
        clean_key k
      else .ok k) with
    | .error e => .error e
    | .ok ck => cleanFold rest (acc ++ "/" ++ ck)

/-- transformer.rs `clean_path`: split on `/`, drop a leading empty
segment, clean every segment and rejoin; an empty rejoined result falls
back to cleaning the whole path as a single key. -/
def clean_path (path : String) : Except TError String :=
  if path = "" then .ok ""
  else
    let toks := strSplit path '/'
    let toks :=
      match toks with
      | t :: rest => if t = "" then rest else t :: rest
      | [] => []
    match cleanFold toks "" with
    | .error e => .error e
    | .ok r => if r = "" then clean_key path else .ok r

/-- transformer.rs `format_key`: path-join of an xpath and a key. -/
def format_key (xpath key : String) : String :=
  if key = "" then xpath
  else if xpath = "" then "/" ++ key
  else xpath ++ "/" ++ key

/-- `serde_json::Value::get` with a string index: field lookup on
objects, `none` on every other variant. -/
def vGet (v : Value) (field : String) : Option Value :=
  match v with
  | .obj m => lookupKV m field
  | _ => none

/-- The per-element collection loop in the `Value::Array` branch of
transformer.rs `resolve_output_field_value`: look the field up in every
element (error on the first element lacking it), splicing per-element
results that are themselves arrays directly into the collected result. -/
def collectElems (f : String) : List Value → Except TError (List Value)
  | [] => .ok []
  | e :: rest =>
    match vGet e f with
    | none => .error (.fieldNotFound f)
    | some v =>
      match collectElems f rest with
      | .error er => .error er
      | .ok tail => .ok ((match v with | .arr xs => xs | w => [w]) ++ tail)

/-- transformer.rs `resolve_output_field_value`: resolve a token list
against the input tree; no tokens left returns the current subtree,
objects look the next token up, arrays broadcast the lookup over their
elements (flattening one level), and any other subtree is returned
unchanged even with tokens remaining. -/
def resolve_output_field_value : List String → Value → Except TError Value
  | [], input => .ok input
  | f :: rest, input =>
    match input with
    | .arr elems =>
      match collectElems f elems with
      | .error er => .error er
      | .ok collected => resolve_output_field_value rest (.arr collected)
    | .obj m =>
      match lookupKV m f with
      | none => .error (.fieldNotFound f)
      | some v => resolve_output_field_value rest v
    | _ => .ok input

mutual

/-- transformer.rs `traverse_mut` (the substitution pass): walk the
template depth-first; object fields recurse with an extended xpath, a
string leaf wrapped in single quotes becomes the literal with all quote
characters removed, any other string leaf is split on `/`, the first
split token is discarded, and the rest is resolved against the input;
a non-string leaf is a malformed-template error. -/
def traverse_mut (input output : Value) (xpath key : String) :
    Except TError Value :=
  match output with
  | .obj fs =>
    match traverseFields input fs (format_key xpath key) with
    | .error e => .error e
    | .ok fs2 => .ok (.obj fs2)
  | .str s =>
    if startsWithCh s sqc && endsWithCh s sqc then
      .ok (.str (String.mk (s.data.filter (fun c => c != sqc))))
    else resolve_output_field_value ((strSplit s '/').drop 1) input
  | _ => .error .malformedTemplate

/-- The field iteration of `traverse_mut`, keys unchanged and values
substituted in order. -/
def traverseFields (input : Value) (fs : List (String × Value)) (xp : String) :
    Except TError (List (String × Value)) :=
  match fs with
  | [] => .ok []
  | (k, v) :: rest =>
    match traverse_mut input v xp k with
    | .error e => .error e
    | .ok v2 =>
      match traverseFields input rest xp with
      | .error e => .error e
      | .ok rest2 => .ok ((k, v2) :: rest2)

end

/-- The insert-then-remove key rename performed on a parent object by
transformer.rs `process_array_convertible_objs` (both the
array-convertible and the spread branches): copy the decorated key's
value to the cleaned key, then remove the decorated key. -/
def renameInObj (m : List (String × Value)) (key ck : String) :
    Except TError (List (String × Value)) :=
  match lookupKV m key with
  | none => .error (.corruption "renameFieldMissing")
  | some v =>
    match removeKV (insertKV m ck v) key with
    | none => .error (.corruption "renameRemoveFailed")
    | some m2 => .ok m2

/-- The parent-object rename of the array-convertible branch: the
parent is the output root when the xpath is empty, otherwise the object
found by pointer at the cleaned xpath. -/
def convRename (output : Value) (xpath pp key ck : String) :
    Except TError Value :=
  if xpath = "" then
    match output with
    | .obj m =>
      match renameInObj m key ck with
      | .error e => .error e
      | .ok m2 => .ok (.obj m2)
    | _ => .error (.corruption "convParentNotObject")
  else
    match ptrTokens pp with
    | none => .error (.corruption "convParentNotFound")
    | some toks =>
      match
        atPointerModify
          (fun v =>
            match v with
            | .obj m =>
              match renameInObj m key ck with
              | .error e => .error e
              | .ok m2 => .ok (.obj m2)
            | _ => .error (.corruption "convParentNotObject"))
          output toks with
      | none => .error (.corruption "convParentNotFound")
      | some r => r

/-- The parent-object rename of the spread branch, always located by
pointer at the cleaned xpath. -/
def spreadRename (output : Value) (pp key ck : String) :
    Except TError Value :=
  match ptrTokens pp with
  | none => .error (.corruption "spreadParentNotFound")
  | some toks =>
    match
      atPointerModify
        (fun v =>
          match v with
          | .obj m =>
            match renameInObj m key ck with
            | .error e => .error e
            | .ok m2 => .ok (.obj m2)
          | _ => .error (.corruption "spreadParentNotObject"))
        output toks with
    | none => .error (.corruption "spreadParentNotFound")
    | some r => r

/-- The per-copy loop of transformer.rs `split_obj_to_array`: copy `i`
receives the value read from the whole output at
`path_to_spread_array/i` (`null` when the index is missing), written at
the relative path inside the copy. -/
def fillCopies (output : Value) (sp rel : String) :
    List Value → Nat → Except TError (List Value)
  | [], _ => .ok []
  | c :: cs, i =>
    match setPointer c rel
        ((getPointer output (format_key sp (Nat.repr i))).getD .null) with
    | none => .error .splitPathMismatch
    | some c2 =>
      match fillCopies output sp rel cs (i + 1) with
      | .error e => .error e
      | .ok cs2 => .ok (c2 :: cs2)

/-- The `while` loop of transformer.rs `split_obj_to_array`: keep
popping spread-array paths off `visited` and distributing their
elements over the copies until the popped path equals the parent
object's path. -/
def splitLoop (output : Value) (pp pk : String) :
    String → List String → List Value → Except TError (List Value × List String)
  | sp, visited, copies =>
    if sp = pp then .ok (copies, visited)
    else
      match splitOnceStr sp pk with
      | none => .error (.corruption "splitOnceFailed")
      | some q =>
        match fillCopies output sp q.2 copies 0 with
        | .error e => .error e
        | .ok copies2 =>
          match visited with
          | [] => .error (.corruption "splitStackEmpty")
          | nxt :: rest => splitLoop output pp pk nxt rest copies2

/-- transformer.rs `split_obj_to_array`: materialise `array_len` copies
of the object at the parent path, distribute every recorded spread
array over them, and replace the parent object by the array of copies. -/
def split_obj_to_array (output : Value) (array_len : Nat)
    (visited : List String) (pp pk : String) :
    Except TError (Value × List String) :=
  match visited with
  | [] => .error (.corruption "splitNoSpreadPath")
  | sp :: visited =>
    match getPointer output pp with
    | none => .error (.corruption "splitParentNotFound")
    | some base =>
      match splitLoop output pp pk sp visited (List.replicate array_len base) with
      | .error e => .error e
      | .ok (copies, vis2) =>
        match setPointer output pp (.arr copies) with
        | none => .error (.corruption "splitWriteFailed")
        | some out2 => .ok (out2, vis2)

mutual

/-- transformer.rs `process_array_convertible_objs` (the
array-conversion pass): walk the post-substitution snapshot (`input`)
while mutating `output`; an object under an array-convertible key is
renamed in its parent, recorded on `visited`, recursed into, and then
split using a length popped from `lens` (missing-spread-array error
when `lens` is empty); a non-object under a spread key is renamed in
its parent, its length pushed onto `lens` when it is an array, and its
cleaned path pushed onto `visited`. -/
def process_array_convertible_objs (input output : Value) (xpath key : String)
    (visited : List String) (lens : List Nat) :
    Except TError (Value × List String × List Nat) :=
  match input with
  | .obj fs =>
    let step1 : Except TError (Value × List String) :=
      if is_obj_to_be_converted_to_array key then
        match clean_path xpath with
        | .error e => .error e
        | .ok pp =>
          match clean_key key with
          | .error e => .error e
          | .ok ck =>
            match convRename output xpath pp key ck with
            | .error e => .error e
            | .ok o2 => .ok (o2, format_key pp ck :: visited)
      else .ok (output, visited)
    match step1 with
    | .error e => .error e
    | .ok (o2, vis2) =>
      match processFields fs o2 (format_key xpath key) vis2 lens with
      | .error e => .error e
      | .ok (o3, vis3, lens3) =>
        if is_obj_to_be_converted_to_array key then
          match lens3 with
          | [] => .error (.missingSpreadArray key)
          | n :: lens4 =>
            match clean_path (format_key xpath key) with
            | .error e => .error e
            | .ok pp2 =>
              match clean_key key with
              | .error e => .error e
              | .ok ck =>
                match split_obj_to_array o3 n vis3 pp2 ck with
                | .error e => .error e
                | .ok (o4, vis4) => .ok (o4, vis4, lens4)
        else .ok (o3, vis3, lens3)
  | _ =>
    if is_to_be_spread_array key then
      match clean_path xpath with
      | .error e => .error e
      | .ok pp =>
        match clean_key key with
        | .error e => .error e
        | .ok ck =>
          match spreadRename output pp key ck with
          | .error e => .error e
          | .ok o2 =>
            let lens2 := match input with | .arr a => a.length :: lens | _ => lens
            .ok (o2, format_key pp ck :: visited, lens2)
    else .ok (output, visited, lens)

/-- The field iteration of `process_array_convertible_objs`, threading
the mutated output and both stacks left to right. -/
def processFields (fs : List (String × Value)) (output : Value) (xp : String)
    (visited : List String) (lens : List Nat) :
    Except TError (Value × List String × List Nat) :=
  match fs with
  | [] => .ok (output, visited, lens)
  | (k, v) :: rest =>
    match process_array_convertible_objs v output xp k visited lens with
    | .error e => .error e
    | .ok (o2, vis2, lens2) => processFields rest o2 xp vis2 lens2

end

/-- The per-element body of the loop in lib.rs `transform`: check the
element is a non-empty object, substitute, then run the
array-conversion pass with fresh empty stacks, returning the mutated
element. -/
def transformEntry (input e : Value) : Except TError Value :=
  match e with
  | .obj fs =>
    match fs with
    | [] => .error .structuralNoKeys
    | _ :: _ =>
      match traverse_mut input e "" "" with
      | .error er => .error er
      | .ok o1 =>
        match process_array_convertible_objs o1 o1 "" "" [] [] with
        | .error er => .error er
        | .ok (o2, _, _) => .ok o2
  | _ => .error .structuralNotObject

/-- The element loop of lib.rs `transform`, collecting the transformed
entries in order. -/
def processEntries (input : Value) : List Value → Except TError (List Value)
  | [] => .ok []
  | e :: rest =>
    match transformEntry input e with
    | .error er => .error er
    | .ok e2 =>
      match processEntries input rest with
      | .error er => .error er
      | .ok rest2 => .ok (e2 :: rest2)

/-- lib.rs `transform`: the template must be an array; transform each
entry and return the array of results. -/
def transform (input template : Value) : Except TError Value :=
  match template with
  | .arr elems =>
    match processEntries input elems with
    | .error er => .error er
    | .ok rs => .ok (.arr rs)
  | _ => .error .structuralNotArray

/-- Run one template entry the way lib.rs `transform` does but keep
the final `visited` / `lens` stacks of the array-conversion pass
(which `transform` itself drops), for stating the stack-drain claims. -/
def entryStacks (input e : Value) : Except TError (Value × List String × List Nat) :=
  match traverse_mut input e "" "" with
  | .error er => .error er
  | .ok o1 => process_array_convertible_objs o1 o1 "" "" [] []

mutual

/-- JSON value equality as `serde_json` implements `PartialEq`:
arrays element-wise in order, objects by key set regardless of entry
order (well-defined because object keys are unique). -/
def jeq : Value → Value → Bool
  | .null, .null => true
  | .bool a, .bool b => a == b
  | .num a, .num b => a == b
  | .str a, .str b => a == b
  | .arr a, .arr b => jeqList a b
  | .obj a, .obj b => a.length == b.length && jeqFields a b
  | _, _ => false

/-- Element-wise `jeq` on arrays. -/
def jeqList : List Value → List Value → Bool
  | [], [] => true
  | a :: r, b :: s => jeq a b && jeqList r s
  | _, _ => false

/-- Every field of the first object matches the second by lookup. -/
def jeqFields : List (String × Value) → List (String × Value) → Bool
  | [], _ => true
  | (k, v) :: r, b =>
    (match lookupKV b k with
     | some w => jeq v w
     | none => false) && jeqFields r b

end

mutual

/-- No key anywhere in this template subtree carries an
array-convertible or spread decoration (only object fields are
inspected, mirroring the traversal of the array-conversion pass). -/
def undecV : Value → Bool
  | .obj fs => undecFields fs
  | _ => true

/-- Field-list version of `undecV`. -/
def undecFields : List (String × Value) → Bool
  | [] => true
  | (k, v) :: rest =>
    !is_obj_to_be_converted_to_array k && !is_to_be_spread_array k &&
      undecV v && undecFields rest

end

/-- Is this error one of the three top-level structural errors of
lib.rs `transform`? -/
def isStructural : TError → Bool
  | .structuralNotArray => true
  | .structuralNotObject => true
  | .structuralNoKeys => true
  | _ => false

/-- Is this value a scalar (neither object nor array)? -/
def isScalar : Value → Bool
  | .obj _ => false
  | .arr _ => false
  | _ => true

/-- The contribution of one array element to the collected result of
the resolver's broadcast step: the members of the looked-up value when
it is an array, the single value otherwise, nothing when the field is
absent. -/
def flatPart (f : String) (e : Value) : List Value :=
  match vGet e f with
  | some (.arr xs) => xs
  | some w => [w]
  | none => []

/-- Decimal digits of a natural number, most significant first
(specification counterpart of `Nat.repr`, used only in proofs). -/
def digsN (n : Nat) : List Nat :=
  if h : n < 10 then [n] else
    have : n / 10 < n := Nat.div_lt_self (by omega) (by omega)
    digsN (n / 10) ++ [n % 10]

/-- Indices `i0, i0+1, ..., i0+k-1`, used to describe the copy-filling
loop of the split step. -/
def idxList (i0 k : Nat) : List Nat :=
  match k with
  | 0 => []
  | k + 1 => i0 :: idxList (i0 + 1) k

/-- The string consisting of one single-quote character. -/
def sqs : String := String.mk [sqc]

/-- The input document of the spec's end-to-end array-split scenario. -/
def c1Input : Value := .obj [("ids", .arr [.str "a", .str "b"])]

/-- The template of the spec's end-to-end array-split scenario. -/
def c1Tpl : Value :=
  .arr [.obj [("[r]",
    .obj [("...x", .str "/ids"), ("y", .str (sqs ++ "z" ++ sqs))])]]

/-- The output the spec displays for the array-split scenario: the bare
object, with no surrounding result array. -/
def c1Claimed : Value :=
  .obj [("r", .arr [.obj [("x", .str "a"), ("y", .str "z")],
                    .obj [("x", .str "b"), ("y", .str "z")]])]

/-- What `transform` actually returns for the array-split scenario: the
one-element result array wrapping that object. -/
def c1Actual : Value := .arr [c1Claimed]

/-- Is a template element rejected by the top-level validation of
lib.rs `transform`: anything that is not an object, or an object with
no keys. -/
def badElem : Value → Bool
  | .obj [] => true
  | .obj (_ :: _) => false
  | _ => true

/- ------------------------------------------------------------------
Helper lemmas (shared infrastructure; none of these is a claim theorem,
witness or counterexample).
------------------------------------------------------------------- -/

theorem stringMk_data (s : String) : String.mk s.data = s := rfl

theorem splitCh_of_not_mem (sep : Char) (l : List Char)
    (h : ∀ c ∈ l, c ≠ sep) : splitCh sep l = [l] := by
  induction l with
  | nil => rfl
  | cons c t ih =>
    have hc : c ≠ sep := h c (by simp)
    have ht : ∀ x ∈ t, x ≠ sep := fun x hx => h x (by simp [hx])
    simp [splitCh, hc, ih ht]

theorem splitCh_append (sep : Char) (l1 l2 : List Char)
    (h : ∀ c ∈ l1, c ≠ sep) :
    splitCh sep (l1 ++ sep :: l2) = l1 :: splitCh sep l2 := by
  induction l1 with
  | nil => simp [splitCh]
  | cons c t ih =>
    have hc : c ≠ sep := h c (by simp)
    have ht : ∀ x ∈ t, x ≠ sep := fun x hx => h x (by simp [hx])
    simp [splitCh, hc, ih ht]

theorem clean_key_total (k : String) : ∃ v, clean_key k = .ok v := by
  unfold clean_key
  by_cases hc : is_obj_to_be_converted_to_array k
  · have hstart : startsWithCh k '[' = true := by
      unfold is_obj_to_be_converted_to_array at hc
      exact (Bool.and_eq_true _ _ |>.mp hc).1
    cases hk : k.data with
    | nil => rw [startsWithCh, hk] at hstart ; cases hstart
    | cons a t =>
      have ha : a = '[' := by
        rw [startsWithCh, hk] at hstart
        exact eq_of_beq hstart
      simp [hc, stripPreCh, hk, ha]
  · simp [hc]

theorem clean_path_total (p : String) : ∃ v, clean_path p = .ok v := by
  unfold clean_path
  by_cases hp : p = ""
  · simp [hp]
  · have fold : ∀ toks acc, ∃ v, cleanFold toks acc = .ok v := by
      intro toks
      induction toks with
      | nil => intro acc ; exact ⟨acc, rfl⟩
      | cons k rest ih =>
        intro acc
        by_cases hk : is_obj_to_be_converted_to_array k || is_to_be_spread_array k
        · obtain ⟨w, hw⟩ := clean_key_total k
          simpa [cleanFold, hk, hw] using ih (acc ++ "/" ++ w)
        · simpa [cleanFold, hk] using ih (acc ++ "/" ++ k)
    obtain ⟨v, hv⟩ := fold
      (match strSplit p '/' with
       | t :: rest => if t = "" then rest else t :: rest
       | [] => []) ""
    by_cases he : v = ""
    · obtain ⟨w, hw⟩ := clean_key_total p
      exact ⟨w, by simp [hp, hv, he, hw]⟩
    · exact ⟨v, by simp [hp, hv, he]⟩

theorem conv_data_shape (k : String)
    (hc : is_obj_to_be_converted_to_array k = true) :
    ∃ b u, k.data = '[' :: b :: u ∧ (b :: u).getLast? = some ']' := by
  have hstart : startsWithCh k '[' = true := by
    unfold is_obj_to_be_converted_to_array at hc
    exact (Bool.and_eq_true _ _ |>.mp hc).1
  have hend : endsWithCh k ']' = true := by
    unfold is_obj_to_be_converted_to_array at hc
    exact (Bool.and_eq_true _ _ |>.mp hc).2
  cases hk : k.data with
  | nil => rw [startsWithCh, hk] at hstart ; cases hstart
  | cons a t =>
    have ha : a = '[' := by
      rw [startsWithCh, hk] at hstart
      exact eq_of_beq hstart
    cases t with
    | nil =>
      rw [endsWithCh, hk, ha] at hend
      simp [List.getLast?] at hend
    | cons b u =>
      refine ⟨b, u, by rw [ha], ?_⟩
      rw [endsWithCh, hk] at hend
      rw [List.getLast?_cons_cons] at hend
      cases hl : (b :: u).getLast? with
      | none => simp [hl] at hend
      | some d =>
        rw [hl] at hend
        exact congrArg some (eq_of_beq hend)

theorem clean_key_conv (k : String)
    (hc : is_obj_to_be_converted_to_array k = true)
    (hs : is_to_be_spread_array k = false) :
    clean_key k = .ok (String.mk (k.data.drop 1).dropLast) := by
  obtain ⟨b, u, hk, hlast⟩ := conv_data_shape k hc
  have h1 : stripPreCh k '[' = some (String.mk (b :: u)) := by
    simp [stripPreCh, hk]
  have h2 : stripSufCh (String.mk (b :: u)) ']' =
      some (String.mk ((b :: u).dropLast)) := by
    simp [stripSufCh, hlast]
  unfold clean_key
  simp [hc, h1, h2, hs, hk]

theorem clean_key_conv_ne (k : String)
    (hc : is_obj_to_be_converted_to_array k = true) :
    String.mk (k.data.drop 1).dropLast ≠ k := by
  obtain ⟨b, u, hk, _⟩ := conv_data_shape k hc
  intro h
  have hd := congrArg String.data h
  show False
  rw [hk] at hd
  have hl := congrArg List.length hd
  simp only [String.mk] at hl
  simp only [List.drop, List.length_dropLast, List.length_cons] at hl
  omega

theorem replace2_of_not_mem (p1 p2 r : Char) (l : List Char)
    (h : ∀ c ∈ l, c ≠ p1) : replace2 p1 p2 r l = l := by
  induction l with
  | nil => rfl
  | cons c t ih =>
    cases t with
    | nil => rfl
    | cons c2 t2 =>
      have hc : (c == p1) = false := by
        simpa using h c (by simp)
      have ih2 := ih (fun x hx => h x (by simp [hx]))
      simp [replace2, hc, ih2]

theorem unescape_of_not_mem (t : String) (h : ∀ c ∈ t.data, c ≠ '~') :
    unescapeTok t = t := by
  unfold unescapeTok
  rw [replace2_of_not_mem _ _ _ _ h, replace2_of_not_mem _ _ _ _ h]

theorem isPrefixOf_append_self (p l : List Char) :
    p.isPrefixOf (p ++ l) = true := by
  induction p with
  | nil => cases l <;> rfl
  | cons a t ih =>
    show ((a == a) && t.isPrefixOf (t ++ l)) = true
    rw [beq_self_eq_true, ih]
    rfl

theorem digsN_mem_lt (n : Nat) : ∀ d ∈ digsN n, d < 10 := by
  induction n using Nat.strong_induction_on with
  | _ n ih =>
    intro d hd
    rw [digsN] at hd
    by_cases h : n < 10
    · rw [dif_pos h] at hd
      rw [List.mem_singleton] at hd
      omega
    · rw [dif_neg h] at hd
      rw [List.mem_append] at hd
      rcases hd with hd | hd
      · exact ih (n / 10) (Nat.div_lt_self (by omega) (by omega)) d hd
      · rw [List.mem_singleton] at hd
        subst hd
        exact Nat.mod_lt n (by omega)

theorem digsN_ne_nil (n : Nat) : digsN n ≠ [] := by
  rw [digsN]
  by_cases h : n < 10
  · rw [dif_pos h]
    exact List.cons_ne_nil _ _
  · rw [dif_neg h]
    simp

theorem digsN_head_ne_zero (n : Nat) (hn : n ≠ 0) :
    ∀ h t, digsN n = h :: t → h ≠ 0 := by
  induction n using Nat.strong_induction_on with
  | _ n ih =>
    intro h t heq
    rw [digsN] at heq
    by_cases hlt : n < 10
    · rw [dif_pos hlt] at heq
      injection heq with h1 _
      omega
    · rw [dif_neg hlt] at heq
      cases hq : digsN (n / 10) with
      | nil => exact absurd hq (digsN_ne_nil _)
      | cons h2 t2 =>
        rw [hq] at heq
        rw [List.cons_append] at heq
        injection heq with h1 _
        rw [← h1]
        exact ih (n / 10) (Nat.div_lt_self (by omega) (by omega))
          (by omega) h2 t2 hq

theorem digsN_foldl (n : Nat) :
    (digsN n).foldl (fun acc d => 10 * acc + d) 0 = n := by
  have gen : ∀ m, ∀ a, (digsN m).foldl (fun acc d => 10 * acc + d) a =
      a * 10 ^ (digsN m).length + m := by
    intro m
    induction m using Nat.strong_induction_on with
    | _ m ih =>
      intro a
      rw [digsN]
      by_cases h : m < 10
      · rw [dif_pos h]
        show 10 * a + m = a * 10 ^ [m].length + m
        rw [List.length_singleton, pow_one]
        ring
      · have hm := Nat.div_lt_self (show 0 < m by omega) (show 1 < 10 by omega)
        rw [dif_neg h, List.foldl_append, ih (m / 10) hm a]
        show 10 * (a * 10 ^ (digsN (m / 10)).length + m / 10) + m % 10 =
          a * 10 ^ (digsN (m / 10) ++ [m % 10]).length + m
        rw [List.length_append, List.length_singleton, pow_succ]
        have hdm : 10 * (m / 10) + m % 10 = m := Nat.div_add_mod m 10
        calc 10 * (a * 10 ^ (digsN (m / 10)).length + m / 10) + m % 10
            = a * (10 ^ (digsN (m / 10)).length * 10) +
              (10 * (m / 10) + m % 10) := by ring
          _ = a * (10 ^ (digsN (m / 10)).length * 10) + m := by rw [hdm]
  have := gen n 0
  simpa using this

theorem toDigitsCore_eq (fuel n : Nat) (ds : List Char) (h : n < fuel) :
    Nat.toDigitsCore 10 fuel n ds = (digsN n).map Nat.digitChar ++ ds := by
  induction fuel generalizing n ds with
  | zero => omega
  | succ f ih =>
    rw [Nat.toDigitsCore]
    by_cases hz : n / 10 = 0
    · have hlt : n < 10 := by omega
      simp [hz, digsN, hlt, Nat.mod_eq_of_lt hlt]
    · have hge : ¬ n < 10 := by
        intro hc
        exact hz (Nat.div_eq_of_lt hc)
      have hfuel : n / 10 < f := by
        have := Nat.div_lt_self (show 0 < n by omega) (show 1 < 10 by omega)
        omega
      simp only [hz, if_false]
      rw [ih (n / 10) _ hfuel]
      conv_rhs => rw [digsN]
      rw [dif_neg hge]
      simp [List.append_assoc]

theorem repr_eq_digsN (n : Nat) :
    Nat.repr n = String.mk ((digsN n).map Nat.digitChar) := by
  show (Nat.toDigits 10 n).asString = _
  unfold Nat.toDigits
  rw [toDigitsCore_eq (n + 1) n [] (by omega)]
  simp [List.asString]

theorem digitChar_facts (d : Nat) (h : d < 10) :
    (Nat.digitChar d).isDigit = true ∧ Nat.digitChar d ≠ '+' ∧
    Nat.digitChar d ≠ '/' ∧ Nat.digitChar d ≠ '~' ∧
    ((Nat.digitChar d == '0') = true ↔ d = 0) ∧
    (Nat.digitChar d).toNat - 48 = d := by
  interval_cases d <;> refine ⟨by decide, by decide, by decide, by decide, by decide, by decide⟩

theorem repr_chars (n : Nat) :
    ∀ c ∈ (Nat.repr n).data, c ≠ '/' ∧ c ≠ '~' := by
  rw [repr_eq_digsN]
  intro c hc
  simp only [String.mk] at hc
  rw [List.mem_map] at hc
  obtain ⟨d, hd, rfl⟩ := hc
  have := digitChar_facts d (digsN_mem_lt n d hd)
  exact ⟨this.2.2.1, this.2.2.2.1⟩

theorem repr_ne_empty (n : Nat) : Nat.repr n ≠ "" := by
  intro h
  have hd := congrArg String.data h
  rw [repr_eq_digsN] at hd
  simp only [String.mk] at hd
  cases he : digsN n with
  | nil => exact digsN_ne_nil n he
  | cons a t => rw [he] at hd ; cases hd

theorem parse_index_repr (n : Nat) : parse_index (Nat.repr n) = some n := by
  rw [repr_eq_digsN]
  cases he : digsN n with
  | nil => exact absurd he (digsN_ne_nil n)
  | cons d ds =>
    have hd10 : d < 10 := digsN_mem_lt n d (by rw [he] ; simp)
    have hf := digitChar_facts d hd10
    have hplus : (Nat.digitChar d == '+') = false := by
      simpa using hf.2.1
    have hall : ((Nat.digitChar d :: ds.map Nat.digitChar).all
        (fun c => c.isDigit)) = true := by
      rw [List.all_cons]
      refine (Bool.and_eq_true _ _).mpr ⟨hf.1, ?_⟩
      rw [List.all_eq_true]
      intro c hc
      rw [List.mem_map] at hc
      obtain ⟨x, hx, rfl⟩ := hc
      exact (digitChar_facts x (digsN_mem_lt n x (by rw [he] ; simp [hx]))).1
    have hfold : (Nat.digitChar d :: ds.map Nat.digitChar).foldl
        (fun a c => 10 * a + (c.toNat - 48)) 0 = n := by
      have : Nat.digitChar d :: ds.map Nat.digitChar =
          (d :: ds).map Nat.digitChar := rfl
      rw [this, List.foldl_map]
      have hcong : ∀ (l : List Nat) (a : Nat), (∀ x ∈ l, x < 10) →
          l.foldl (fun acc x => 10 * acc + ((Nat.digitChar x).toNat - 48)) a =
          l.foldl (fun acc x => 10 * acc + x) a := by
        intro l
        induction l with
        | nil => intro a _ ; rfl
        | cons x r ih =>
          intro a hl
          have hx := (digitChar_facts x (hl x (by simp))).2.2.2.2.2
          simp only [List.foldl_cons, hx]
          exact ih _ (fun y hy => hl y (by simp [hy]))
      rw [hcong (d :: ds) 0 (fun x hx => digsN_mem_lt n x (by rw [he] ; exact hx))]
      rw [← he]
      exact digsN_foldl n
    by_cases hz : d = 0
    · subst hz
      have hn : n = 0 := by
        by_contra hn0
        exact digsN_head_ne_zero n hn0 0 ds he rfl
      subst hn
      have : digsN 0 = [0] := by rw [digsN] ; simp
      rw [this] at he
      have hds : ds = [] := by simpa using he.symm
      subst hds
      simp [parse_index, String.mk]
      decide
    · have h0 : (Nat.digitChar d == '0') = false := by
        rw [Bool.eq_false_iff]
        intro hc
        exact hz (hf.2.2.2.2.1.mp hc)
      simp only [parse_index, String.mk]
      rw [List.map_cons]
      simp only [hplus, h0, Bool.false_and, if_false, hall, if_true, hfold]
      rfl

theorem data_slash1 (a : String) : ("/" ++ a).data = '/' :: a.data := by
  rw [String.data_append] ; rfl

theorem data_slash2 (a b : String) :
    ("/" ++ a ++ "/" ++ b).data = '/' :: (a.data ++ '/' :: b.data) := by
  rw [String.data_append, String.data_append, String.data_append]
  simp

theorem slash_ne_empty (a : String) : "/" ++ a ≠ "" := by
  intro h
  have hd := congrArg String.data h
  rw [data_slash1] at hd
  cases hd

theorem startsWith_slash (a : String) : startsWithCh ("/" ++ a) '/' = true := by
  rw [startsWithCh, data_slash1]
  rfl

theorem ptrTokens_seg1 (a : String) (ha : ∀ c ∈ a.data, c ≠ '/')
    (hta : ∀ c ∈ a.data, c ≠ '~') :
    ptrTokens ("/" ++ a) = some [a] := by
  unfold ptrTokens
  rw [if_neg (slash_ne_empty a), if_pos (startsWith_slash a)]
  unfold strSplit
  rw [data_slash1]
  show some ((((splitCh '/' ('/' :: a.data)).map String.mk).drop 1).map unescapeTok) = _
  have : splitCh '/' ('/' :: a.data) = [[], a.data] := by
    simp [splitCh, splitCh_of_not_mem '/' a.data ha]
  rw [this]
  simp [unescape_of_not_mem a hta, stringMk_data]

theorem ptrTokens_seg2 (a b : String) (ha : ∀ c ∈ a.data, c ≠ '/')
    (hta : ∀ c ∈ a.data, c ≠ '~') (hb : ∀ c ∈ b.data, c ≠ '/')
    (htb : ∀ c ∈ b.data, c ≠ '~') :
    ptrTokens ("/" ++ a ++ "/" ++ b) = some [a, b] := by
  unfold ptrTokens
  have hne : "/" ++ a ++ "/" ++ b ≠ "" := by
    intro h
    have hd := congrArg String.data h
    rw [data_slash2] at hd
    cases hd
  have hsw : startsWithCh ("/" ++ a ++ "/" ++ b) '/' = true := by
    rw [startsWithCh, data_slash2]
    rfl
  rw [if_neg hne, if_pos hsw]
  unfold strSplit
  rw [data_slash2]
  show some ((((splitCh '/' ('/' :: (a.data ++ '/' :: b.data))).map
    String.mk).drop 1).map unescapeTok) = _
  have : splitCh '/' ('/' :: (a.data ++ '/' :: b.data)) =
      [[], a.data, b.data] := by
    simp only [splitCh, beq_self_eq_true, if_true]
    rw [splitCh_append '/' a.data _ ha, splitCh_of_not_mem '/' b.data hb]
  rw [this]
  simp [unescape_of_not_mem a hta, unescape_of_not_mem b htb, stringMk_data]

theorem data_slash3 (a b c : String) :
    ("/" ++ a ++ "/" ++ b ++ "/" ++ c).data =
      '/' :: (a.data ++ '/' :: (b.data ++ '/' :: c.data)) := by
  repeat rw [String.data_append]
  simp

theorem ptrTokens_seg3 (a b c : String) (ha : ∀ x ∈ a.data, x ≠ '/')
    (hta : ∀ x ∈ a.data, x ≠ '~') (hb : ∀ x ∈ b.data, x ≠ '/')
    (htb : ∀ x ∈ b.data, x ≠ '~') (hc : ∀ x ∈ c.data, x ≠ '/')
    (htc : ∀ x ∈ c.data, x ≠ '~') :
    ptrTokens ("/" ++ a ++ "/" ++ b ++ "/" ++ c) = some [a, b, c] := by
  unfold ptrTokens
  have hne : "/" ++ a ++ "/" ++ b ++ "/" ++ c ≠ "" := by
    intro h
    have hd := congrArg String.data h
    rw [data_slash3] at hd
    cases hd
  have hsw : startsWithCh ("/" ++ a ++ "/" ++ b ++ "/" ++ c) '/' = true := by
    rw [startsWithCh, data_slash3]
    rfl
  rw [if_neg hne, if_pos hsw]
  unfold strSplit
  rw [data_slash3]
  show some ((((splitCh '/' ('/' :: (a.data ++ '/' :: (b.data ++ '/' :: c.data)))).map
    String.mk).drop 1).map unescapeTok) = _
  have : splitCh '/' ('/' :: (a.data ++ '/' :: (b.data ++ '/' :: c.data))) =
      [[], a.data, b.data, c.data] := by
    simp only [splitCh, beq_self_eq_true, if_true]
    rw [splitCh_append '/' a.data _ ha, splitCh_append '/' b.data _ hb,
      splitCh_of_not_mem '/' c.data hc]
  rw [this]
  simp [unescape_of_not_mem a hta, unescape_of_not_mem b htb,
    unescape_of_not_mem c htc, stringMk_data]

theorem splitOnce_parent (kr f : String) (hne : kr.data ≠ [])
    (hk : ∀ c ∈ kr.data, c ≠ '/') :
    splitOnceStr ("/" ++ kr ++ "/" ++ f) kr = some ("/", "/" ++ f) := by
  unfold splitOnceStr
  rw [data_slash2]
  have hpre : kr.data.isPrefixOf ('/' :: (kr.data ++ '/' :: f.data)) = false := by
    cases hd : kr.data with
    | nil => exact absurd hd hne
    | cons k0 ks =>
      have hk0 : (k0 == '/') = false := by
        simpa using hk k0 (by rw [hd] ; simp)
      show ((k0 == '/') && _) = false
      rw [hk0]
      rfl
  have hrec : splitOnceL kr.data (kr.data ++ '/' :: f.data) =
      some ([], '/' :: f.data) := by
    cases hd2 : kr.data ++ '/' :: f.data with
    | nil =>
      exfalso
      cases hd : kr.data with
      | nil => exact absurd hd hne
      | cons k0 ks =>
        rw [hd] at hd2
        cases hd2
    | cons y ys =>
      have hself : kr.data.isPrefixOf (y :: ys) = true := by
        rw [← hd2]
        exact isPrefixOf_append_self _ _
      rw [splitOnceL, if_pos hself, ← hd2, List.drop_left]
  have hout : splitOnceL kr.data ('/' :: (kr.data ++ '/' :: f.data)) =
      some (['/'], '/' :: f.data) := by
    rw [splitOnceL, if_neg (by rw [hpre] ; exact Bool.false_ne_true), hrec]
    rfl
  rw [hout]
  show some (String.mk ['/'], String.mk ('/' :: f.data)) = _
  have h1 : String.mk ['/'] = "/" := rfl
  have h2 : String.mk ('/' :: f.data) = "/" ++ f := by
    have := data_slash1 f
    exact congrArg String.mk this.symm
  rw [h1, h2]

theorem idxList_shift (k : Nat) : ∀ i0,
    idxList (i0 + 1) k = (idxList i0 k).map (· + 1) := by
  induction k with
  | zero => intro i0 ; rfl
  | succ k ih =>
    intro i0
    show (i0 + 1) :: idxList (i0 + 2) k = (i0 + 1) :: (idxList (i0 + 1) k).map (· + 1)
    rw [← ih (i0 + 1)]

theorem replicate_as_idxList (k : Nat) (base : Value) : ∀ i0,
    List.replicate k base = (idxList i0 k).map (fun _ => base) := by
  induction k with
  | zero => intro i0 ; rfl
  | succ k ih =>
    intro i0
    show base :: List.replicate k base = base :: (idxList (i0 + 1) k).map _
    rw [ih (i0 + 1)]

theorem fillCopies_eq (output : Value) (sp rel : String) (g g2 : Nat → Value)
    (k : Nat) : ∀ (i0 : Nat),
    (∀ j, j < k → setPointer (g (i0 + j)) rel
        ((getPointer output (format_key sp (Nat.repr (i0 + j)))).getD .null) =
        some (g2 (i0 + j))) →
    fillCopies output sp rel ((idxList i0 k).map g) i0 =
      .ok ((idxList i0 k).map g2) := by
  induction k with
  | zero => intro i0 _ ; rfl
  | succ k ih =>
    intro i0 h
    show fillCopies output sp rel (g i0 :: (idxList (i0 + 1) k).map g) i0 = _
    have h0 := h 0 (by omega)
    rw [Nat.add_zero] at h0
    have ih2 := ih (i0 + 1) (fun j hj => by
      have := h (j + 1) (by omega)
      rw [show i0 + (j + 1) = i0 + 1 + j by omega] at this
      exact this)
    simp only [fillCopies, h0, ih2]
    rfl

theorem idxList_map_get (xs : List Value) (F : Value → Value) :
    (idxList 0 xs.length).map (fun i => F ((xs.get? i).getD .null)) =
      xs.map F := by
  have gen : ∀ (ys : List Value) (G : Nat → Value),
      (∀ j, j < ys.length → G j = F ((ys.get? j).getD .null)) →
      (idxList 0 ys.length).map G = ys.map F := by
    intro ys
    induction ys with
    | nil => intro G _ ; rfl
    | cons y r ih =>
      intro G hG
      show G 0 :: (idxList 1 r.length).map G = F y :: r.map F
      have h0 : G 0 = F y := by simpa using hG 0 (by simp)
      rw [h0, idxList_shift]
      rw [List.map_map]
      congr 1
      exact ih (fun j => G (j + 1)) (fun j hj => by
        have := hG (j + 1) (by simpa using hj)
        simpa using this)
  exact gen xs (fun i => F ((xs.get? i).getD .null)) (fun j _ => rfl)

theorem lookup_replace_ne (m : List (String × Value)) (f g : String) (v : Value)
    (h : g ≠ f) : lookupKV (replaceKV m f v) g = lookupKV m g := by
  induction m with
  | nil => rfl
  | cons p rest ih =>
    obtain ⟨k, w⟩ := p
    by_cases hk : (k == f) = true
    · have hg : (k == g) = false := by
        have hkf : k = f := eq_of_beq hk
        subst hkf
        exact beq_eq_false_iff_ne.mpr (fun hgg => h hgg.symm)
      simp [replaceKV, lookupKV, hk, hg]
    · have hk2 : (k == f) = false := by simpa using hk
      simp [replaceKV, lookupKV, hk2, ih]

theorem sp_ne_pp (kr f : String) : "/" ++ kr ++ "/" ++ f ≠ "/" ++ kr := by
  intro h
  have hd := congrArg String.data h
  rw [data_slash2, data_slash1] at hd
  have hl := congrArg List.length hd
  simp only [List.length_cons, List.length_append] at hl
  omega

theorem slash2_ne_empty (a b : String) : "/" ++ a ++ "/" ++ b ≠ "" := by
  intro h
  have hd := congrArg String.data h
  rw [data_slash2] at hd
  cases hd

mutual

theorem process_noop : ∀ (v out : Value) (xp k : String) (vis : List String)
    (lens : List Nat),
    is_obj_to_be_converted_to_array k = false →
    is_to_be_spread_array k = false → undecV v = true →
    process_array_convertible_objs v out xp k vis lens = .ok (out, vis, lens)
  | .obj fs, out, xp, k, vis, lens => fun hc hs hu => by
    have hf := processFields_noop fs out (format_key xp k) vis lens
      (by rw [undecV] at hu ; exact hu)
    rw [process_array_convertible_objs]
    simp only [hc, Bool.false_eq_true, if_false, hf]
  | .null, out, xp, k, vis, lens => fun hc hs hu => by
    rw [process_array_convertible_objs]
    simp only [hs, Bool.false_eq_true, if_false]
    all_goals exact fun _ h => Value.noConfusion h
  | .bool b, out, xp, k, vis, lens => fun hc hs hu => by
    rw [process_array_convertible_objs]
    simp only [hs, Bool.false_eq_true, if_false]
    all_goals exact fun _ h => Value.noConfusion h
  | .num n, out, xp, k, vis, lens => fun hc hs hu => by
    rw [process_array_convertible_objs]
    simp only [hs, Bool.false_eq_true, if_false]
    all_goals exact fun _ h => Value.noConfusion h
  | .str s, out, xp, k, vis, lens => fun hc hs hu => by
    rw [process_array_convertible_objs]
    simp only [hs, Bool.false_eq_true, if_false]
    all_goals exact fun _ h => Value.noConfusion h
  | .arr l, out, xp, k, vis, lens => fun hc hs hu => by
    rw [process_array_convertible_objs]
    simp only [hs, Bool.false_eq_true, if_false]

theorem processFields_noop : ∀ (fs : List (String × Value)) (out : Value)
    (xp : String) (vis : List String) (lens : List Nat),
    undecFields fs = true →
    processFields fs out xp vis lens = .ok (out, vis, lens)
  | [], out, xp, vis, lens => fun _ => rfl
  | (k, v) :: rest, out, xp, vis, lens => fun hu => by
    rw [undecFields] at hu
    simp only [Bool.and_eq_true, Bool.not_eq_true'] at hu
    obtain ⟨⟨⟨h1, h2⟩, h3⟩, h4⟩ := hu
    have hp := process_noop v out xp k vis lens h1 h2 h3
    have hr := processFields_noop rest out xp vis lens h4
    simp only [processFields, hp, hr]

end

/- ------------------------------------------------------------------
Claim theorems.
------------------------------------------------------------------- -/

/-- C2 (counterexample): the split step does not always replace the
convertible object by the `N`-element array: with the convertible
object `[order]` nested under a same-named ancestor key `order`, the
`split_once` on the cleaned parent key matches inside the ancestor
segment of the spread path, the derived relative path `/order/f` is
absent from the copies, and both the bare split step and the whole
`transform` fail with the split-path-mismatch error instead. -/
theorem c2_counterexample :
    split_obj_to_array
        (.obj [("order", .obj [("order", .obj [("f", .arr [.num 1, .num 2])])])])
        2 ["/order/order/f", "/order/order"] "/order/order" "order" =
      .error .splitPathMismatch ∧
    transform (.obj [("arr", .arr [.num 1, .num 2])])
        (.arr [.obj [("order", .obj [("[order]",
          .obj [("...f", .str "/arr")])])]]) =
      .error .splitPathMismatch :=
  ⟨rfl, rfl⟩

/-- C2 (amended): the split step on an array-convertible object that is
the root object of the entry (already renamed to its cleaned key `kr`,
at parent path `/kr`), whose fields `m` hold exactly one spread array
`f` of length `N = a.length`, with `visited` recording the spread path
above the parent path: the object is replaced by an `N`-element array
whose element `i` is the object with the `i`-th element of `a` at the
(cleaned) spread position `f`, every other field left untouched (hence
deep-equal across all elements); both recorded paths are consumed.
When the cleaned parent key instead occurs earlier in the recorded
spread path (for example under a same-named ancestor), the relative
path is derived from the wrong occurrence and the split fails (see the
counterexample). -/
theorem c2_split_correctness (kr f : String) (m : List (String × Value))
    (a : List Value) (hkr : kr.data ≠ [])
    (hkrc : ∀ c ∈ kr.data, c ≠ '/' ∧ c ≠ '~')
    (hfc : ∀ c ∈ f.data, c ≠ '/' ∧ c ≠ '~')
    (hm : lookupKV m f = some (.arr a)) :
    split_obj_to_array (.obj [(kr, .obj m)]) a.length
        ["/" ++ kr ++ "/" ++ f, "/" ++ kr] ("/" ++ kr) kr =
      .ok (.obj [(kr, .arr (a.map (fun v => .obj (replaceKV m f v))))], []) ∧
    (∀ g, g ≠ f → ∀ v, lookupKV (replaceKV m f v) g = lookupKV m g) := by
  refine ⟨?_, fun g hg v => lookup_replace_ne m f g v hg⟩
  have hkr1 : ∀ c ∈ kr.data, c ≠ '/' := fun c hc => (hkrc c hc).1
  have hkr2 : ∀ c ∈ kr.data, c ≠ '~' := fun c hc => (hkrc c hc).2
  have hf1 : ∀ c ∈ f.data, c ≠ '/' := fun c hc => (hfc c hc).1
  have hf2 : ∀ c ∈ f.data, c ≠ '~' := fun c hc => (hfc c hc).2
  have hbase : getPointer (Value.obj [(kr, Value.obj m)]) ("/" ++ kr) =
      some (.obj m) := by
    unfold getPointer
    rw [ptrTokens_seg1 kr hkr1 hkr2]
    simp [getTokens, lookupKV]
  have hsonce : splitOnceStr ("/" ++ kr ++ "/" ++ f) kr = some ("/", "/" ++ f) :=
    splitOnce_parent kr f hkr hkr1
  have hread : ∀ j : Nat,
      getPointer (Value.obj [(kr, Value.obj m)])
        (format_key ("/" ++ kr ++ "/" ++ f) (Nat.repr j)) = a.get? j := by
    intro j
    have hfk : format_key ("/" ++ kr ++ "/" ++ f) (Nat.repr j) =
        "/" ++ kr ++ "/" ++ f ++ "/" ++ Nat.repr j := by
      unfold format_key
      rw [if_neg (repr_ne_empty j), if_neg (slash2_ne_empty kr f)]
    rw [hfk]
    unfold getPointer
    rw [ptrTokens_seg3 kr f (Nat.repr j) hkr1 hkr2 hf1 hf2
      (fun c hc => (repr_chars j c hc).1) (fun c hc => (repr_chars j c hc).2)]
    simp [getTokens, lookupKV, hm, parse_index_repr j]
  have hset : ∀ w : Value, setPointer (.obj m) ("/" ++ f) w =
      some (.obj (replaceKV m f w)) := by
    intro w
    unfold setPointer
    rw [ptrTokens_seg1 f hf1 hf2]
    simp [setTokens, hm]
  have hfill : fillCopies (Value.obj [(kr, Value.obj m)]) ("/" ++ kr ++ "/" ++ f)
      ("/" ++ f) (List.replicate a.length (.obj m)) 0 =
      .ok ((idxList 0 a.length).map
        (fun i => Value.obj (replaceKV m f ((a.get? i).getD Value.null)))) := by
    rw [replicate_as_idxList a.length (.obj m) 0]
    refine fillCopies_eq (Value.obj [(kr, Value.obj m)]) ("/" ++ kr ++ "/" ++ f)
      ("/" ++ f) (fun _ => .obj m)
      (fun i => Value.obj (replaceKV m f ((a.get? i).getD Value.null)))
      a.length 0 ?_
    intro j hj
    rw [Nat.zero_add, hread j]
    exact hset _
  have hloop2 : ∀ cs, splitLoop (Value.obj [(kr, Value.obj m)]) ("/" ++ kr) kr
      ("/" ++ kr) [] cs = .ok (cs, []) := by
    intro cs
    rw [splitLoop, if_pos rfl]
  have hloop : splitLoop (Value.obj [(kr, Value.obj m)]) ("/" ++ kr) kr
      ("/" ++ kr ++ "/" ++ f) ["/" ++ kr] (List.replicate a.length (.obj m)) =
      .ok ((idxList 0 a.length).map
        (fun i => Value.obj (replaceKV m f ((a.get? i).getD Value.null))), []) := by
    rw [splitLoop, if_neg (sp_ne_pp kr f)]
    simp only [hsonce, hfill, hloop2]
  have hwrite : setPointer (Value.obj [(kr, Value.obj m)]) ("/" ++ kr)
      (.arr ((idxList 0 a.length).map
        (fun i => Value.obj (replaceKV m f ((a.get? i).getD Value.null))))) =
      some (.obj [(kr, .arr ((idxList 0 a.length).map
        (fun i => Value.obj (replaceKV m f ((a.get? i).getD Value.null)))))]) := by
    unfold setPointer
    rw [ptrTokens_seg1 kr hkr1 hkr2]
    simp [setTokens, lookupKV, replaceKV]
  have hmap : (idxList 0 a.length).map
      (fun i => Value.obj (replaceKV m f ((a.get? i).getD Value.null))) =
      a.map (fun v => Value.obj (replaceKV m f v)) :=
    idxList_map_get a (fun v => Value.obj (replaceKV m f v))
  rw [split_obj_to_array]
  simp only [hbase, hloop, hwrite]
  rw [hmap]

/-- C2 witness: a two-element spread array `x` next to a scalar field
`y` yields two copies pairing each element with the shared `y`. -/
theorem c2_witness :
    split_obj_to_array
        (.obj [("r", .obj [("x", .arr [.null, .bool true]), ("y", .str "w")])])
        2 ["/" ++ "r" ++ "/" ++ "x", "/" ++ "r"] ("/" ++ "r") "r" =
      .ok (.obj [("r", .arr [.obj [("x", .null), ("y", .str "w")],
                             .obj [("x", .bool true), ("y", .str "w")]])], []) ∧
    lookupKV (replaceKV [("x", .arr [.null, .bool true]), ("y", .str "w")]
        "x" .null) "y" = some (.str "w") := by
  have h := c2_split_correctness "r" "x"
    [("x", .arr [.null, .bool true]), ("y", .str "w")] [.null, .bool true]
    (by decide) (by decide) (by decide) rfl
  exact ⟨h.1, h.2 "y" (by decide) .null⟩

/-- C1 (counterexample): on the spec's array-split scenario, `transform`
succeeds but its result is not (even up to object-key order) the bare
object `{r:[{x:a,y:z},{x:b,y:z}]}` that the claim states. -/
theorem c1_counterexample :
    (transform c1Input c1Tpl).map (fun v => jeq v c1Claimed) = .ok false := by
  decide

/-- C1 (amended): on the spec's array-split scenario, `transform`
succeeds and returns the one-element result array `[{r:[{x:a,y:z},
{x:b,y:z}]}]` — the claimed object wrapped in the per-entry result
array, the array-convertible object having become a 2-element array
with one spread element each and the literal `z` in both. -/
theorem c1_amended :
    transform c1Input c1Tpl =
      .ok (.arr [.obj [("r",
        .arr [.obj [("y", .str "z"), ("x", .str "a")],
              .obj [("y", .str "z"), ("x", .str "b")]])]]) ∧
    (transform c1Input c1Tpl).map (fun v => jeq v c1Actual) = .ok true := by
  exact ⟨rfl, by decide⟩

/-- C3: when the resolver meets an array whose per-element lookups all
yield arrays, it splices the members of those inner arrays directly
into one collected array (one level of flattening) and continues with
the remaining segments on it; the collected array's length is the total
count of elements across the per-element arrays. -/
theorem c3_resolver_flattening (f : String) (rest : List String)
    (elems : List Value)
    (h : ∀ e ∈ elems, ∃ xs, vGet e f = some (.arr xs)) :
    resolve_output_field_value (f :: rest) (.arr elems) =
      resolve_output_field_value rest (.arr (elems.flatMap (flatPart f))) ∧
    (elems.flatMap (flatPart f)).length =
      (elems.map (fun e => (flatPart f e).length)).sum := by
  have hc : collectElems f elems = .ok (elems.flatMap (flatPart f)) := by
    induction elems with
    | nil => rfl
    | cons e restE ih =>
      obtain ⟨xs, hx⟩ := h e (by simp)
      have ih2 := ih (fun x hxm => h x (by simp [hxm]))
      simp [collectElems, hx, ih2, flatPart]
  refine ⟨by simp [resolve_output_field_value, hc], ?_⟩
  simp [List.length_flatMap, Function.comp_def]

/-- C3 witness: two shipments with two and one items respectively give
a single flat 3-element array. -/
theorem c3_witness :
    resolve_output_field_value ["s"]
        (.arr [.obj [("s", .arr [.null, .bool true])],
               .obj [("s", .arr [.num 7])]]) =
      resolve_output_field_value []
        (.arr [.null, .bool true, .num 7]) ∧
    ([Value.null, Value.bool true, Value.num 7]).length = [2, 1].sum := by
  have h := c3_resolver_flattening "s" []
    [.obj [("s", .arr [.null, .bool true])], .obj [("s", .arr [.num 7])]]
    (by intro e he; fin_cases he <;> exact ⟨_, rfl⟩)
  simpa using h

/-- C4: the resolver with no segments left returns the current subtree,
and on a scalar subtree it returns the scalar unchanged without error
even when segments remain. -/
theorem c4_resolver_base_cases (input : Value) (toks : List String) :
    resolve_output_field_value [] input = .ok input ∧
    (isScalar input = true →
      resolve_output_field_value toks input = .ok input) := by
  refine ⟨rfl, fun h => ?_⟩
  cases toks with
  | nil => rfl
  | cons f rest => cases input <;> simp_all [resolve_output_field_value, isScalar]

/-- C4 witness: the resolver at a string scalar with a segment left. -/
theorem c4_witness :
    resolve_output_field_value [] (Value.str "v") = .ok (.str "v") ∧
    resolve_output_field_value ["a", "b"] (Value.str "v") = .ok (.str "v") :=
  ⟨(c4_resolver_base_cases (.str "v") ["a", "b"]).1,
   (c4_resolver_base_cases (.str "v") ["a", "b"]).2 (by decide)⟩

/-- C5 (counterexample): cleaning is not idempotent: `[[a]]` cleans to
`[a]`, which cleans again to `a`. -/
theorem c5_counterexample :
    (clean_key "[[a]]").bind clean_key ≠ clean_key "[[a]]" := by decide

/-- C5 (amended): cleaning is idempotent on every key whose cleaned
form carries no residual decoration (is not bracket-wrapped and does
not contain `...`); it is not idempotent in general. -/
theorem c5_amended (k ck : String) (h : clean_key k = .ok ck)
    (h1 : is_obj_to_be_converted_to_array ck = false)
    (h2 : is_to_be_spread_array ck = false) :
    (clean_key k).bind clean_key = clean_key k := by
  rw [h]
  show clean_key ck = .ok ck
  unfold clean_key
  simp [h1, h2]

/-- C5 witness: `[a]` cleans to the decoration-free `a`, on which
cleaning is idempotent. -/
theorem c5_witness : (clean_key "[a]").bind clean_key = clean_key "[a]" :=
  c5_amended "[a]" "a" (by decide) (by decide) (by decide)

/-- C6 (counterexample): a key with an opening bracket but no closing
bracket is not array-convertible, so `clean_key` returns it unchanged
instead of failing with a malformed-key error. -/
theorem c6_counterexample : clean_key "[abc" = .ok "[abc" := by decide

/-- C6 (amended): `clean_key` never fails (the malformed-key branch is
unreachable because a key counts as array-convertible only when it both
starts with `[` and ends with `]`); on a bracket-balanced key without
`...` it strips the brackets, and on any key containing `...` the
result is the original key with a leading `...` stripped when present
(bracket stripping being discarded in that case). -/
theorem c6_amended (k : String) :
    (∃ v, clean_key k = .ok v) ∧
    (is_obj_to_be_converted_to_array k = true →
      is_to_be_spread_array k = false →
      clean_key k = .ok (String.mk (k.data.drop 1).dropLast)) ∧
    (is_to_be_spread_array k = true →
      clean_key k = .ok ((stripPreStr k "...").getD k)) := by
  refine ⟨clean_key_total k, fun hc hs => clean_key_conv k hc hs, fun hs => ?_⟩
  unfold clean_key
  by_cases hc : is_obj_to_be_converted_to_array k
  · obtain ⟨v, hv⟩ := clean_key_total k
    unfold clean_key at hv
    by_cases hp : (stripPreCh k '[').isSome
    · obtain ⟨s, hsome⟩ := Option.isSome_iff_exists.mp hp
      simp [hc, hsome, hs]
    · rw [Option.not_isSome_iff_eq_none] at hp
      simp [hc, hp] at hv
  · simp [hc, hs]

/-- C6 witness: a balanced key strips brackets; a spread key strips the
leading dots. -/
theorem c6_witness : clean_key "[ab]" = .ok "ab" ∧ clean_key "...k" = .ok "k" := by
  refine ⟨?_, ?_⟩
  · have h := (c6_amended "[ab]").2.1 (by decide) (by decide)
    simpa using h
  · have h := (c6_amended "...k").2.2 (by decide)
    simpa using h

/-- C10: a template leaf string that is not single-quote-wrapped and
contains no `/` splits into a single token which is then discarded,
leaving no segments, so substitution replaces the leaf with a clone of
the whole input document and does not fail. -/
theorem c10_slashless_leaf (input : Value) (s xpath key : String)
    (hq : (startsWithCh s sqc && endsWithCh s sqc) = false)
    (hs : ∀ c ∈ s.data, c ≠ '/') :
    traverse_mut input (.str s) xpath key = .ok input := by
  have hsplit : strSplit s '/' = [s] := by
    unfold strSplit
    rw [splitCh_of_not_mem '/' s.data hs]
    simp [stringMk_data]
  rw [traverse_mut, hq]
  simp [hsplit, resolve_output_field_value]

/-- C10 witness: the leaves `abc` and the empty string both become the
whole input. -/
theorem c10_witness :
    traverse_mut (.obj [("k", .num 3)]) (.str "abc") "" "x" =
      .ok (.obj [("k", .num 3)]) ∧
    traverse_mut (.obj [("k", .num 3)]) (.str "") "" "x" =
      .ok (.obj [("k", .num 3)]) :=
  ⟨c10_slashless_leaf (.obj [("k", .num 3)]) "abc" "" "x" (by decide)
      (by decide),
   c10_slashless_leaf (.obj [("k", .num 3)]) "" "" "x" (by decide)
      (by decide)⟩


/-- C8 (counterexample): an array-convertible object with no
spread-array descendant does not always fail: a sibling spread array
outside the convertible object pushes a length onto the array-length
stack, the spreadless `[r]` pops that stale length, and `transform`
succeeds with no missing-spread-array error. -/
theorem c8_counterexample :
    transform (.obj [("arr", .arr [.num 1])])
        (.arr [.obj [("...s", .str "/arr"),
          ("[r]", .obj [("y", .str (sqs ++ "z" ++ sqs))])]]) =
      .ok (.arr [.obj [("s", .arr [.num 1]),
        ("r", .arr [.obj [("y", .str "z")]])]]) := rfl

/-- C8 (amended): (a) a template whose single entry holds exactly the
array-convertible key, over an object that after substitution contains
no decorated (spread or convertible) descendant — so no stale length is
available on the array-length stack — fails with the
missing-spread-array error naming that decorated key (with another
spread array elsewhere in the entry, the convertible object consumes
its stale length and `transform` succeeds instead, see the
counterexample); (b) a single-entry template whose leaf path references
a field absent from the input object fails with the field-not-found
error naming that field. -/
theorem c8_errors :
    (∀ (input : Value) (bk : String) (body : Value) (fs : List (String × Value)),
      is_obj_to_be_converted_to_array bk = true →
      is_to_be_spread_array bk = false →
      traverse_mut input (.obj [(bk, body)]) "" "" = .ok (.obj [(bk, .obj fs)]) →
      undecFields fs = true →
      transform input (.arr [.obj [(bk, body)]]) =
        .error (.missingSpreadArray bk)) ∧
    (∀ (o : List (String × Value)) (f k : String),
      lookupKV o f = none → (∀ c ∈ f.data, c ≠ '/') →
      transform (.obj o) (.arr [.obj [(k, .str ("/" ++ f))]]) =
        .error (.fieldNotFound f)) := by
  constructor
  · intro input bk body fs hconv hnospread htr hundec
    obtain ⟨b, u, hbk, _⟩ := conv_data_shape bk hconv
    have hck : clean_key bk = .ok (String.mk (bk.data.drop 1).dropLast) :=
      clean_key_conv bk hconv hnospread
    have hne : String.mk (bk.data.drop 1).dropLast ≠ bk :=
      clean_key_conv_ne bk hconv
    have hbeq : (bk == String.mk (bk.data.drop 1).dropLast) = false :=
      beq_eq_false_iff_ne.mpr (fun h => hne h.symm)
    have hrn : convRename (.obj [(bk, .obj fs)]) "" ""
        bk (String.mk (bk.data.drop 1).dropLast) =
        .ok (.obj [(String.mk (bk.data.drop 1).dropLast, .obj fs)]) := by
      have hne2 : ¬ (bk = String.mk bk.data.tail.dropLast) := by
        rw [← List.drop_one]
        exact fun h => hne h.symm
      rw [convRename, if_pos rfl]
      simp [renameInObj, lookupKV, insertKV, containsKV, removeKV, hbeq, hne2]
    have hpf := processFields_noop fs
      (.obj [(String.mk (bk.data.drop 1).dropLast, .obj fs)])
      (format_key "" bk)
      [format_key "" (String.mk (bk.data.drop 1).dropLast)] [] hundec
    have hinner : process_array_convertible_objs (.obj fs)
        (.obj [(bk, .obj fs)]) "" bk [] [] =
        .error (.missingSpreadArray bk) := by
      rw [process_array_convertible_objs]
      simp only [hconv, if_true]
      have hcp : clean_path "" = .ok "" := rfl
      simp only [hcp, hck, hrn, hpf]
    have hpr : process_array_convertible_objs (.obj [(bk, .obj fs)])
        (.obj [(bk, .obj fs)]) "" "" [] [] =
        .error (.missingSpreadArray bk) := by
      rw [process_array_convertible_objs]
      have hc0 : is_obj_to_be_converted_to_array "" = false := rfl
      simp only [hc0, Bool.false_eq_true, if_false]
      have hfk : format_key "" "" = "" := rfl
      rw [hfk]
      simp only [processFields, hinner]
    rw [transform]
    simp only [processEntries, transformEntry, htr, hpr]
  · intro o f k hf hfc
    have hsplit : strSplit ("/" ++ f) '/' = ["", f] := by
      unfold strSplit
      rw [data_slash1]
      show ((splitCh '/' ('/' :: f.data)).map String.mk) = _
      have : splitCh '/' ('/' :: f.data) = [[], f.data] := by
        simp [splitCh, splitCh_of_not_mem '/' f.data hfc]
      rw [this]
      simp [stringMk_data]
    have hsq : startsWithCh ("/" ++ f) sqc = false := by
      rw [startsWithCh, data_slash1]
      rfl
    have hleaf : traverse_mut (.obj o) (.str ("/" ++ f)) "" k =
        .error (.fieldNotFound f) := by
      rw [traverse_mut, hsq]
      simp only [Bool.false_and, Bool.false_eq_true, if_false, hsplit]
      show resolve_output_field_value [f] (.obj o) = _
      rw [resolve_output_field_value, hf]
    have htrav : traverse_mut (.obj o) (.obj [(k, .str ("/" ++ f))]) "" "" =
        .error (.fieldNotFound f) := by
      rw [traverse_mut]
      have hfk : format_key "" "" = "" := rfl
      simp only [hfk, traverseFields, hleaf]
    rw [transform]
    simp only [processEntries, transformEntry, htrav]

/-- C8 witness: a convertible object with only a literal field fails
with the missing-spread-array error; a path to an absent field fails
with field-not-found. -/
theorem c8_witness :
    transform .null
        (.arr [.obj [("[r]", .obj [("y", .str (sqs ++ "q" ++ sqs))])]]) =
      .error (.missingSpreadArray "[r]") ∧
    transform (.obj [("a", .null)])
        (.arr [.obj [("k", .str ("/" ++ "zz"))]]) =
      .error (.fieldNotFound "zz") :=
  ⟨c8_errors.1 .null "[r]" (.obj [("y", .str (sqs ++ "q" ++ sqs))])
      [("y", .str "q")] (by decide) (by decide) rfl (by decide),
   c8_errors.2 [("a", .null)] "zz" "k" rfl (by decide)⟩

/-- C9 (counterexample): the stacks are not both drained on success:
on an entry whose convertible object holds two spread arrays,
`transform` succeeds yet the array-length stack is left holding one
unconsumed length; and on an entry whose spread array has no
convertible ancestor, `transform` succeeds with the spread path still
on the visited stack and its length still on the array-length stack. -/
theorem c9_counterexample :
    (entryStacks (.obj [("p", .arr [.str "a"]), ("q", .arr [.str "b"])])
        (.obj [("[r]", .obj [("...x", .str "/p"), ("...y", .str "/q")])])).map
      (fun t => (t.2.1, t.2.2)) = .ok ([], [1]) ∧
    (transform (.obj [("p", .arr [.str "a"]), ("q", .arr [.str "b"])])
        (.arr [.obj [("[r]", .obj [("...x", .str "/p"),
          ("...y", .str "/q")])]])).map (fun _ => ()) = .ok () ∧
    (entryStacks (.obj [("arr", .arr [.num 1])])
        (.obj [("...s", .str "/arr")])).map
      (fun t => (t.2.1, t.2.2)) = .ok (["/s"], [1]) ∧
    (transform (.obj [("arr", .arr [.num 1])])
        (.arr [.obj [("...s", .str "/arr")]])).map
      (fun _ => ()) = .ok () := by
  exact ⟨by decide, by decide, by decide, by decide⟩

/-- C9 (amended): a successfully processed entry need not drain the
stacks: (i) for an entry whose convertible object `r` holds two spread
arrays `x` and `y` (of lengths `|a|` and `|b|`), processing succeeds,
the visited stack is fully drained, but the array-length stack retains
the earlier-pushed length `|a|` — only the most recently pushed length
is consumed by the split; (ii) for an entry whose spread array has no
convertible ancestor, processing succeeds leaving the cleaned spread
path on the visited stack and the array's length on the array-length
stack. -/
theorem c9_amended :
    (∀ a b : List Value,
      entryStacks (.obj [("p", .arr a), ("q", .arr b)])
          (.obj [("[r]", .obj [("...x", .str "/p"), ("...y", .str "/q")])]) =
        .ok (.obj [("r", .arr ((idxList 0 b.length).map (fun i =>
              .obj [("x", (a.get? i).getD .null),
                    ("y", (b.get? i).getD .null)])))],
            [], [a.length])) ∧
    (∀ a : List Value,
      entryStacks (.obj [("arr", .arr a)]) (.obj [("...s", .str "/arr")]) =
        .ok (.obj [("s", .arr a)], ["/s"], [a.length])) := by
  refine ⟨fun a b => ?_, fun a => rfl⟩
  have hreadY : ∀ j : Nat,
      getPointer (.obj [("r", .obj [("x", Value.arr a), ("y", Value.arr b)])])
        (format_key "/r/y" (Nat.repr j)) = b.get? j := by
    intro j
    have hfk : format_key "/r/y" (Nat.repr j) =
        "/" ++ "r" ++ "/" ++ "y" ++ "/" ++ Nat.repr j := by
      unfold format_key
      rw [if_neg (repr_ne_empty j), if_neg (by decide)]
      rfl
    rw [hfk]
    unfold getPointer
    rw [ptrTokens_seg3 "r" "y" (Nat.repr j) (by decide) (by decide) (by decide)
      (by decide) (fun c hc => (repr_chars j c hc).1)
      (fun c hc => (repr_chars j c hc).2)]
    simp [getTokens, lookupKV, parse_index_repr j]
  have hreadX : ∀ j : Nat,
      getPointer (.obj [("r", .obj [("x", Value.arr a), ("y", Value.arr b)])])
        (format_key "/r/x" (Nat.repr j)) = a.get? j := by
    intro j
    have hfk : format_key "/r/x" (Nat.repr j) =
        "/" ++ "r" ++ "/" ++ "x" ++ "/" ++ Nat.repr j := by
      unfold format_key
      rw [if_neg (repr_ne_empty j), if_neg (by decide)]
      rfl
    rw [hfk]
    unfold getPointer
    rw [ptrTokens_seg3 "r" "x" (Nat.repr j) (by decide) (by decide) (by decide)
      (by decide) (fun c hc => (repr_chars j c hc).1)
      (fun c hc => (repr_chars j c hc).2)]
    simp [getTokens, lookupKV, parse_index_repr j]
  have hptY : ptrTokens "/y" = some ["y"] := rfl
  have hptX : ptrTokens "/x" = some ["x"] := rfl
  have hsetY : ∀ w : Value,
      setPointer (.obj [("x", Value.arr a), ("y", Value.arr b)]) "/y" w =
        some (.obj [("x", Value.arr a), ("y", w)]) := by
    intro w
    unfold setPointer
    rw [hptY]
    simp [setTokens, lookupKV, replaceKV]
  have hsetX : ∀ (w1 w : Value),
      setPointer (.obj [("x", Value.arr a), ("y", w1)]) "/x" w =
        some (.obj [("x", w), ("y", w1)]) := by
    intro w1 w
    unfold setPointer
    rw [hptX]
    simp [setTokens, lookupKV, replaceKV]
  have hfill1 : fillCopies
      (.obj [("r", .obj [("x", Value.arr a), ("y", Value.arr b)])]) "/r/y" "/y"
      (List.replicate b.length (.obj [("x", Value.arr a), ("y", Value.arr b)]))
      0 =
      .ok ((idxList 0 b.length).map (fun i =>
        .obj [("x", Value.arr a), ("y", (b.get? i).getD .null)])) := by
    rw [replicate_as_idxList b.length _ 0]
    refine fillCopies_eq _ "/r/y" "/y" _ _ b.length 0 ?_
    intro j hj
    rw [Nat.zero_add, hreadY j]
    exact hsetY _
  have hfill2 : fillCopies
      (.obj [("r", .obj [("x", Value.arr a), ("y", Value.arr b)])]) "/r/x" "/x"
      ((idxList 0 b.length).map (fun i =>
        .obj [("x", Value.arr a), ("y", (b.get? i).getD .null)])) 0 =
      .ok ((idxList 0 b.length).map (fun i =>
        .obj [("x", (a.get? i).getD .null), ("y", (b.get? i).getD .null)])) := by
    refine fillCopies_eq _ "/r/x" "/x" _ _ b.length 0 ?_
    intro j hj
    rw [Nat.zero_add, hreadX j]
    exact hsetX _ _
  have hloop : splitLoop
      (.obj [("r", .obj [("x", Value.arr a), ("y", Value.arr b)])]) "/r" "r"
      "/r/y" ["/r/x", "/r"]
      (List.replicate b.length (.obj [("x", Value.arr a), ("y", Value.arr b)])) =
      .ok ((idxList 0 b.length).map (fun i =>
        .obj [("x", (a.get? i).getD .null), ("y", (b.get? i).getD .null)]), []) := by
    rw [splitLoop, if_neg (by decide)]
    have hso1 : splitOnceStr "/r/y" "r" = some ("/", "/y") := rfl
    simp only [hso1, hfill1]
    rw [splitLoop, if_neg (by decide)]
    have hso2 : splitOnceStr "/r/x" "r" = some ("/", "/x") := rfl
    simp only [hso2, hfill2]
    rw [splitLoop, if_pos rfl]
  have hsplitfull : split_obj_to_array
      (.obj [("r", .obj [("x", Value.arr a), ("y", Value.arr b)])]) b.length
      ["/r/y", "/r/x", "/r"] "/r" "r" =
      .ok (.obj [("r", .arr ((idxList 0 b.length).map (fun i =>
        .obj [("x", (a.get? i).getD .null), ("y", (b.get? i).getD .null)])))],
        []) := by
    rw [split_obj_to_array]
    have hgp : getPointer
        (.obj [("r", .obj [("x", Value.arr a), ("y", Value.arr b)])]) "/r" =
        some (.obj [("x", Value.arr a), ("y", Value.arr b)]) := rfl
    have hsp : setPointer
        (.obj [("r", .obj [("x", Value.arr a), ("y", Value.arr b)])]) "/r"
        (.arr ((idxList 0 b.length).map (fun i =>
          .obj [("x", (a.get? i).getD .null), ("y", (b.get? i).getD .null)]))) =
        some (.obj [("r", .arr ((idxList 0 b.length).map (fun i =>
          .obj [("x", (a.get? i).getD .null),
                ("y", (b.get? i).getD .null)])))]) := rfl
    simp only [hgp, hloop, hsp]
  have hx : process_array_convertible_objs (Value.arr a)
      (.obj [("r", .obj [("...x", Value.arr a), ("...y", Value.arr b)])])
      "/[r]" "...x" ["/r"] [] =
      .ok (.obj [("r", .obj [("...y", Value.arr b), ("x", Value.arr a)])],
        ["/r/x", "/r"], [a.length]) := rfl
  have hy : process_array_convertible_objs (Value.arr b)
      (.obj [("r", .obj [("...y", Value.arr b), ("x", Value.arr a)])])
      "/[r]" "...y" ["/r/x", "/r"] [a.length] =
      .ok (.obj [("r", .obj [("x", Value.arr a), ("y", Value.arr b)])],
        ["/r/y", "/r/x", "/r"], [b.length, a.length]) := rfl
  have hinner : process_array_convertible_objs
      (.obj [("...x", Value.arr a), ("...y", Value.arr b)])
      (.obj [("[r]", .obj [("...x", Value.arr a), ("...y", Value.arr b)])])
      "" "[r]" [] [] =
      .ok (.obj [("r", .arr ((idxList 0 b.length).map (fun i =>
            .obj [("x", (a.get? i).getD .null),
                  ("y", (b.get? i).getD .null)])))], [], [a.length]) := by
    rw [process_array_convertible_objs]
    have hc1 : is_obj_to_be_converted_to_array "[r]" = true := rfl
    have hcp : clean_path "" = Except.ok "" := rfl
    have hck : clean_key "[r]" = Except.ok "r" := rfl
    have hcr : convRename
        (.obj [("[r]", .obj [("...x", Value.arr a), ("...y", Value.arr b)])])
        "" "" "[r]" "r" =
        .ok (.obj [("r", .obj [("...x", Value.arr a), ("...y", Value.arr b)])]) :=
      rfl
    have hfk1 : format_key "" "r" = "/r" := rfl
    have hfk2 : format_key "" "[r]" = "/[r]" := rfl
    simp only [hc1, if_true, hcp, hck, hcr, hfk1, hfk2, processFields, hx, hy]
    have hcp2 : clean_path "/[r]" = Except.ok "/r" := rfl
    simp only [hcp2, hck, hsplitfull]
  have htrav : traverse_mut (.obj [("p", Value.arr a), ("q", Value.arr b)])
      (.obj [("[r]", .obj [("...x", Value.str "/p"), ("...y", Value.str "/q")])])
      "" "" =
      .ok (.obj [("[r]", .obj [("...x", Value.arr a), ("...y", Value.arr b)])]) :=
    rfl
  have houter : process_array_convertible_objs
      (.obj [("[r]", .obj [("...x", Value.arr a), ("...y", Value.arr b)])])
      (.obj [("[r]", .obj [("...x", Value.arr a), ("...y", Value.arr b)])])
      "" "" [] [] =
      .ok (.obj [("r", .arr ((idxList 0 b.length).map (fun i =>
            .obj [("x", (a.get? i).getD .null),
                  ("y", (b.get? i).getD .null)])))], [], [a.length]) := by
    rw [process_array_convertible_objs]
    have hc0 : is_obj_to_be_converted_to_array "" = false := rfl
    have hfk0 : format_key "" "" = "" := rfl
    simp only [hc0, Bool.false_eq_true, if_false, hfk0, processFields, hinner]
  rw [entryStacks]
  simp only [htrav, houter]

theorem collectElems_ns (f : String) (elems : List Value) :
    ∀ e, collectElems f elems = .error e → isStructural e = false := by
  induction elems with
  | nil => intro e h ; exact Except.noConfusion h
  | cons x rest ih =>
    intro e h
    rw [collectElems] at h
    cases hg : vGet x f with
    | none =>
      rw [hg] at h
      injection h with he
      subst he
      rfl
    | some v =>
      rw [hg] at h
      cases hc : collectElems f rest with
      | error e2 =>
        rw [hc] at h
        injection h with he
        subst he
        exact ih e2 hc
      | ok tail =>
        rw [hc] at h
        exact Except.noConfusion h

theorem resolve_ns (toks : List String) :
    ∀ (input : Value) (e : TError),
    resolve_output_field_value toks input = .error e → isStructural e = false := by
  induction toks with
  | nil => intro input e h ; exact Except.noConfusion h
  | cons f rest ih =>
    intro input e h
    cases input with
    | arr elems =>
      rw [resolve_output_field_value] at h
      cases hc : collectElems f elems with
      | error e2 =>
        rw [hc] at h
        injection h with he
        subst he
        exact collectElems_ns f elems e2 hc
      | ok collected =>
        rw [hc] at h
        exact ih _ e h
    | obj m =>
      rw [resolve_output_field_value] at h
      cases hl : lookupKV m f with
      | none =>
        rw [hl] at h
        injection h with he
        subst he
        rfl
      | some v =>
        rw [hl] at h
        exact ih v e h
    | null =>
      rw [resolve_output_field_value] at h
      · exact Except.noConfusion h
      · exact fun _ hh => Value.noConfusion hh
      · exact fun _ hh => Value.noConfusion hh
    | bool b =>
      rw [resolve_output_field_value] at h
      · exact Except.noConfusion h
      · exact fun _ hh => Value.noConfusion hh
      · exact fun _ hh => Value.noConfusion hh
    | num n =>
      rw [resolve_output_field_value] at h
      · exact Except.noConfusion h
      · exact fun _ hh => Value.noConfusion hh
      · exact fun _ hh => Value.noConfusion hh
    | str s =>
      rw [resolve_output_field_value] at h
      · exact Except.noConfusion h
      · exact fun _ hh => Value.noConfusion hh
      · exact fun _ hh => Value.noConfusion hh

mutual

theorem traverse_ns : ∀ (input output : Value) (xp k : String) (e : TError),
    traverse_mut input output xp k = .error e → isStructural e = false
  | input, .obj fs, xp, k, e => fun h => by
    rw [traverse_mut] at h
    cases hf : traverseFields input fs (format_key xp k) with
    | error e2 =>
      rw [hf] at h
      injection h with he
      subst he
      exact traverseFields_ns input fs (format_key xp k) e2 hf
    | ok l =>
      rw [hf] at h
      exact Except.noConfusion h
  | input, .str s, xp, k, e => fun h => by
    rw [traverse_mut] at h
    by_cases hq : (startsWithCh s sqc && endsWithCh s sqc) = true
    · rw [if_pos hq] at h
      exact Except.noConfusion h
    · rw [if_neg hq] at h
      exact resolve_ns _ _ e h
  | input, .null, xp, k, e => fun h => by
    rw [traverse_mut] at h
    · injection h with he ; subst he ; rfl
    · exact fun _ hh => Value.noConfusion hh
    · exact fun _ hh => Value.noConfusion hh
  | input, .bool b, xp, k, e => fun h => by
    rw [traverse_mut] at h
    · injection h with he ; subst he ; rfl
    · exact fun _ hh => Value.noConfusion hh
    · exact fun _ hh => Value.noConfusion hh
  | input, .num n, xp, k, e => fun h => by
    rw [traverse_mut] at h
    · injection h with he ; subst he ; rfl
    · exact fun _ hh => Value.noConfusion hh
    · exact fun _ hh => Value.noConfusion hh
  | input, .arr l, xp, k, e => fun h => by
    rw [traverse_mut] at h
    · injection h with he ; subst he ; rfl
    · exact fun _ hh => Value.noConfusion hh
    · exact fun _ hh => Value.noConfusion hh

theorem traverseFields_ns : ∀ (input : Value) (fs : List (String × Value))
    (xp : String) (e : TError),
    traverseFields input fs xp = .error e → isStructural e = false
  | input, [], xp, e => fun h => Except.noConfusion h
  | input, (k, v) :: rest, xp, e => fun h => by
    rw [traverseFields] at h
    cases ht : traverse_mut input v xp k with
    | error e2 =>
      rw [ht] at h
      injection h with he
      subst he
      exact traverse_ns input v xp k e2 ht
    | ok v2 =>
      rw [ht] at h
      cases hr : traverseFields input rest xp with
      | error e2 =>
        rw [hr] at h
        injection h with he
        subst he
        exact traverseFields_ns input rest xp e2 hr
      | ok rest2 =>
        rw [hr] at h
        exact Except.noConfusion h

end

theorem renameInObj_ns (m : List (String × Value)) (key ck : String) :
    ∀ e, renameInObj m key ck = .error e → isStructural e = false := by
  intro e h
  rw [renameInObj] at h
  cases hl : lookupKV m key with
  | none =>
    simp only [hl] at h
    injection h with he
    subst he
    rfl
  | some v =>
    simp only [hl] at h
    cases hr : removeKV (insertKV m ck v) key with
    | none =>
      simp only [hr] at h
      injection h with he
      subst he
      rfl
    | some m2 =>
      simp only [hr] at h
      exact Except.noConfusion h

theorem renameF_ns (key ck : String) : ∀ (w : Value) (e : TError) (site : String),
    (match w with
     | Value.obj m =>
       match renameInObj m key ck with
       | .error e2 => Except.error e2
       | .ok m2 => Except.ok (Value.obj m2)
     | _ => Except.error (TError.corruption site)) = .error e →
    isStructural e = false := by
  intro w e site h
  cases w with
  | obj m =>
    cases hr : renameInObj m key ck with
    | error e2 =>
      simp only [hr] at h
      injection h with he
      subst he
      exact renameInObj_ns m key ck e2 hr
    | ok m2 =>
      simp only [hr] at h
      exact Except.noConfusion h
  | null => injection h with he ; subst he ; rfl
  | bool b => injection h with he ; subst he ; rfl
  | num n => injection h with he ; subst he ; rfl
  | str s => injection h with he ; subst he ; rfl
  | arr l => injection h with he ; subst he ; rfl

theorem apm_ns (F : Value → Except TError Value)
    (hF : ∀ w e2, F w = .error e2 → isStructural e2 = false) :
    ∀ (toks : List String) (v : Value) (e : TError),
    atPointerModify F v toks = some (.error e) → isStructural e = false := by
  intro toks
  induction toks with
  | nil =>
    intro v e h
    rw [atPointerModify] at h
    injection h with he
    exact hF v e he
  | cons t rest ih =>
    intro v e h
    cases v with
    | obj m =>
      rw [atPointerModify] at h
      cases hl : lookupKV m t with
      | none =>
        rw [hl] at h
        exact Option.noConfusion h
      | some c =>
        simp only [hl, Option.bind, Option.map] at h
        cases ha : atPointerModify F c rest with
        | none =>
          simp only [ha] at h
          exact Option.noConfusion h
        | some r =>
          simp only [ha] at h
          have hr2 : Except.map (fun c2 => Value.obj (replaceKV m t c2)) r =
              Except.error e := by
            injection h
          cases r with
          | error e2 =>
            simp only [Except.map] at hr2
            obtain rfl : e2 = e := by injection hr2
            exact ih c e2 ha
          | ok x =>
            simp only [Except.map] at hr2
            exact Except.noConfusion hr2
    | arr l =>
      rw [atPointerModify] at h
      cases hp : parse_index t with
      | none =>
        rw [hp] at h
        exact Option.noConfusion h
      | some i =>
        simp only [hp, Option.bind] at h
        cases hg : l.get? i with
        | none =>
          simp only [hg] at h
          exact Option.noConfusion h
        | some c =>
          simp only [hg, Option.map] at h
          cases ha : atPointerModify F c rest with
          | none =>
            simp only [ha] at h
            exact Option.noConfusion h
          | some r =>
            simp only [ha] at h
            have hr2 : Except.map (fun c2 => Value.arr (l.set i c2)) r =
                Except.error e := by
              injection h
            cases r with
            | error e2 =>
              simp only [Except.map] at hr2
              obtain rfl : e2 = e := by injection hr2
              exact ih c e2 ha
            | ok x =>
              simp only [Except.map] at hr2
              exact Except.noConfusion hr2
    | null =>
      rw [atPointerModify] at h
      · exact Option.noConfusion h
      · exact fun _ hh => Value.noConfusion hh
      · exact fun _ hh => Value.noConfusion hh
    | bool b =>
      rw [atPointerModify] at h
      · exact Option.noConfusion h
      · exact fun _ hh => Value.noConfusion hh
      · exact fun _ hh => Value.noConfusion hh
    | num n =>
      rw [atPointerModify] at h
      · exact Option.noConfusion h
      · exact fun _ hh => Value.noConfusion hh
      · exact fun _ hh => Value.noConfusion hh
    | str s =>
      rw [atPointerModify] at h
      · exact Option.noConfusion h
      · exact fun _ hh => Value.noConfusion hh
      · exact fun _ hh => Value.noConfusion hh

theorem clean_key_ns (k : String) :
    ∀ e, clean_key k = .error e → isStructural e = false := by
  intro e h
  obtain ⟨v, hv⟩ := clean_key_total k
  rw [hv] at h
  exact Except.noConfusion h

theorem clean_path_ns (p : String) :
    ∀ e, clean_path p = .error e → isStructural e = false := by
  intro e h
  obtain ⟨v, hv⟩ := clean_path_total p
  rw [hv] at h
  exact Except.noConfusion h

theorem convRename_ns (output : Value) (xpath pp key ck : String) :
    ∀ e, convRename output xpath pp key ck = .error e → isStructural e = false := by
  intro e h
  have helse : ∀ (out2 : Value),
      (match ptrTokens pp with
       | none => Except.error (TError.corruption "convParentNotFound")
       | some toks =>
         match atPointerModify (fun v =>
             match v with
             | Value.obj m =>
               match renameInObj m key ck with
               | .error e2 => Except.error e2
               | .ok m2 => Except.ok (Value.obj m2)
             | _ => Except.error (TError.corruption "convParentNotObject"))
             out2 toks with
         | none => Except.error (TError.corruption "convParentNotFound")
         | some r => r) = Except.error e → isStructural e = false := by
    intro out2 hh
    cases hp : ptrTokens pp with
    | none =>
      simp only [hp] at hh
      injection hh with he
      subst he
      rfl
    | some toks =>
      simp only [hp] at hh
      cases ha : atPointerModify (fun v =>
          match v with
          | Value.obj m =>
            match renameInObj m key ck with
            | .error e2 => Except.error e2
            | .ok m2 => Except.ok (Value.obj m2)
          | _ => Except.error (TError.corruption "convParentNotObject"))
          out2 toks with
      | none =>
        simp only [ha] at hh
        injection hh with he
        subst he
        rfl
      | some r =>
        simp only [ha] at hh
        subst hh
        exact apm_ns _ (fun w e2 hw => renameF_ns key ck w e2 _ hw) toks out2 e ha
  cases output with
  | obj m =>
    rw [convRename] at h
    by_cases hx : xpath = ""
    · rw [if_pos hx] at h
      cases hr : renameInObj m key ck with
      | error e2 =>
        simp only [hr] at h
        injection h with he
        subst he
        exact renameInObj_ns m key ck e2 hr
      | ok m2 =>
        simp only [hr] at h
        exact Except.noConfusion h
    · rw [if_neg hx] at h
      exact helse _ h
  | null =>
    rw [convRename] at h
    · by_cases hx : xpath = ""
      · rw [if_pos hx] at h
        injection h with he
        subst he
        rfl
      · rw [if_neg hx] at h
        exact helse _ h
    all_goals exact fun _ hh => Value.noConfusion hh
  | bool b =>
    rw [convRename] at h
    · by_cases hx : xpath = ""
      · rw [if_pos hx] at h
        injection h with he
        subst he
        rfl
      · rw [if_neg hx] at h
        exact helse _ h
    all_goals exact fun _ hh => Value.noConfusion hh
  | num n =>
    rw [convRename] at h
    · by_cases hx : xpath = ""
      · rw [if_pos hx] at h
        injection h with he
        subst he
        rfl
      · rw [if_neg hx] at h
        exact helse _ h
    all_goals exact fun _ hh => Value.noConfusion hh
  | str s =>
    rw [convRename] at h
    · by_cases hx : xpath = ""
      · rw [if_pos hx] at h
        injection h with he
        subst he
        rfl
      · rw [if_neg hx] at h
        exact helse _ h
    all_goals exact fun _ hh => Value.noConfusion hh
  | arr l =>
    rw [convRename] at h
    · by_cases hx : xpath = ""
      · rw [if_pos hx] at h
        injection h with he
        subst he
        rfl
      · rw [if_neg hx] at h
        exact helse _ h
    all_goals exact fun _ hh => Value.noConfusion hh

theorem spreadRename_ns (output : Value) (pp key ck : String) :
    ∀ e, spreadRename output pp key ck = .error e → isStructural e = false := by
  intro e h
  rw [spreadRename] at h
  cases hp : ptrTokens pp with
  | none =>
    simp only [hp] at h
    injection h with he
    subst he
    rfl
  | some toks =>
    simp only [hp] at h
    cases ha : atPointerModify (fun v =>
        match v with
        | Value.obj m =>
          match renameInObj m key ck with
          | .error e2 => Except.error e2
          | .ok m2 => Except.ok (Value.obj m2)
        | _ => Except.error (TError.corruption "spreadParentNotObject"))
        output toks with
    | none =>
      simp only [ha] at h
      injection h with he
      subst he
      rfl
    | some r =>
      simp only [ha] at h
      subst h
      exact apm_ns _ (fun w e2 hw => renameF_ns key ck w e2 _ hw) toks output e ha

theorem fillCopies_ns (output : Value) (sp rel : String) :
    ∀ (copies : List Value) (i : Nat) (e : TError),
    fillCopies output sp rel copies i = .error e → isStructural e = false := by
  intro copies
  induction copies with
  | nil => intro i e h ; exact Except.noConfusion h
  | cons c cs ih =>
    intro i e h
    rw [fillCopies] at h
    cases hs : setPointer c rel
        ((getPointer output (format_key sp (Nat.repr i))).getD .null) with
    | none =>
      simp only [hs] at h
      injection h with he
      subst he
      rfl
    | some c2 =>
      simp only [hs] at h
      cases hf : fillCopies output sp rel cs (i + 1) with
      | error e2 =>
        simp only [hf] at h
        injection h with he
        subst he
        exact ih (i + 1) e2 hf
      | ok cs2 =>
        simp only [hf] at h
        exact Except.noConfusion h

theorem splitLoop_ns (output : Value) (pp pk : String) :
    ∀ (visited : List String) (sp : String) (copies : List Value) (e : TError),
    splitLoop output pp pk sp visited copies = .error e → isStructural e = false := by
  intro visited
  induction visited with
  | nil =>
    intro sp copies e h
    rw [splitLoop] at h
    by_cases hx : sp = pp
    · rw [if_pos hx] at h
      exact Except.noConfusion h
    · rw [if_neg hx] at h
      cases ho : splitOnceStr sp pk with
      | none =>
        simp only [ho] at h
        injection h with he
        subst he
        rfl
      | some q =>
        simp only [ho] at h
        cases hf : fillCopies output sp q.2 copies 0 with
        | error e2 =>
          simp only [hf] at h
          injection h with he
          subst he
          exact fillCopies_ns output sp q.2 copies 0 e2 hf
        | ok copies2 =>
          simp only [hf] at h
          injection h with he
          subst he
          rfl
  | cons nxt rest ih =>
    intro sp copies e h
    rw [splitLoop] at h
    by_cases hx : sp = pp
    · rw [if_pos hx] at h
      exact Except.noConfusion h
    · rw [if_neg hx] at h
      cases ho : splitOnceStr sp pk with
      | none =>
        simp only [ho] at h
        injection h with he
        subst he
        rfl
      | some q =>
        simp only [ho] at h
        cases hf : fillCopies output sp q.2 copies 0 with
        | error e2 =>
          simp only [hf] at h
          injection h with he
          subst he
          exact fillCopies_ns output sp q.2 copies 0 e2 hf
        | ok copies2 =>
          simp only [hf] at h
          exact ih nxt copies2 e h

theorem split_ns (output : Value) (array_len : Nat) (visited : List String)
    (pp pk : String) :
    ∀ e, split_obj_to_array output array_len visited pp pk = .error e →
    isStructural e = false := by
  intro e h
  cases visited with
  | nil =>
    rw [split_obj_to_array] at h
    injection h with he
    subst he
    rfl
  | cons sp rest =>
    rw [split_obj_to_array] at h
    cases hg : getPointer output pp with
    | none =>
      simp only [hg] at h
      injection h with he
      subst he
      rfl
    | some base =>
      simp only [hg] at h
      cases hl : splitLoop output pp pk sp rest (List.replicate array_len base) with
      | error e2 =>
        simp only [hl] at h
        injection h with he
        subst he
        exact splitLoop_ns output pp pk rest sp _ e2 hl
      | ok q =>
        simp only [hl] at h
        cases hs : setPointer output pp (.arr q.1) with
        | none =>
          simp only [hs] at h
          injection h with he
          subst he
          rfl
        | some out2 =>
          simp only [hs] at h
          exact Except.noConfusion h

theorem process_ns_scalar_case (v out : Value) (xp k : String)
    (vis : List String) (lens : List Nat) (e : TError) :
    (if is_to_be_spread_array k = true then
      match clean_path xp with
      | .error e2 => Except.error e2
      | .ok pp =>
        match clean_key k with
        | .error e2 => Except.error e2
        | .ok ck =>
          match spreadRename out pp k ck with
          | .error e2 => Except.error e2
          | .ok o2 =>
            Except.ok (o2, format_key pp ck :: vis,
              match v with
              | Value.arr a => a.length :: lens
              | _ => lens)
     else Except.ok (out, vis, lens)) = Except.error e →
    isStructural e = false := by
  intro h
  by_cases hs : is_to_be_spread_array k = true
  · rw [if_pos hs] at h
    cases hp : clean_path xp with
    | error e2 =>
      simp only [hp] at h
      injection h with he
      subst he
      exact clean_path_ns xp e2 hp
    | ok pp =>
      simp only [hp] at h
      cases hk : clean_key k with
      | error e2 =>
        simp only [hk] at h
        injection h with he
        subst he
        exact clean_key_ns k e2 hk
      | ok ck =>
        simp only [hk] at h
        cases hr : spreadRename out pp k ck with
        | error e2 =>
          simp only [hr] at h
          injection h with he
          subst he
          exact spreadRename_ns out pp k ck e2 hr
        | ok o2 =>
          simp only [hr] at h
          exact Except.noConfusion h
  · rw [if_neg hs] at h
    exact Except.noConfusion h

mutual

theorem process_ns : ∀ (v out : Value) (xp k : String) (vis : List String)
    (lens : List Nat) (e : TError),
    process_array_convertible_objs v out xp k vis lens = .error e →
    isStructural e = false
  | .obj fs, out, xp, k, vis, lens, e => fun h => by
    rw [process_array_convertible_objs] at h
    by_cases hc : is_obj_to_be_converted_to_array k = true
    · simp only [hc, if_true] at h
      cases hp : clean_path xp with
      | error e2 =>
        simp only [hp] at h
        injection h with he
        subst he
        exact clean_path_ns xp e2 hp
      | ok pp =>
        simp only [hp] at h
        cases hk : clean_key k with
        | error e2 =>
          simp only [hk] at h
          injection h with he
          subst he
          exact clean_key_ns k e2 hk
        | ok ck =>
          simp only [hk] at h
          cases hcr : convRename out xp pp k ck with
          | error e2 =>
            simp only [hcr] at h
            injection h with he
            subst he
            exact convRename_ns out xp pp k ck e2 hcr
          | ok o2 =>
            simp only [hcr] at h
            cases hpf : processFields fs o2 (format_key xp k)
                (format_key pp ck :: vis) lens with
            | error e2 =>
              simp only [hpf] at h
              injection h with he
              subst he
              exact processFields_ns fs o2 (format_key xp k)
                (format_key pp ck :: vis) lens e2 hpf
            | ok trip =>
              obtain ⟨o3, vis3, lens3⟩ := trip
              simp only [hpf, hc, if_true] at h
              cases lens3 with
              | nil =>
                injection h with he
                subst he
                rfl
              | cons n lens4 =>
                cases hp2 : clean_path (format_key xp k) with
                | error e2 =>
                  simp only [hp2] at h
                  injection h with he
                  subst he
                  exact clean_path_ns _ e2 hp2
                | ok pp2 =>
                  simp only [hp2] at h
                  cases hsp : split_obj_to_array o3 n vis3 pp2 ck with
                  | error e2 =>
                    simp only [hsp] at h
                    injection h with he
                    subst he
                    exact split_ns o3 n vis3 pp2 ck e2 hsp
                  | ok q =>
                    simp only [hsp] at h
                    exact Except.noConfusion h
    · have hc2 : is_obj_to_be_converted_to_array k = false := by
        revert hc
        cases is_obj_to_be_converted_to_array k <;> simp
      simp only [hc2, Bool.false_eq_true, if_false] at h
      cases hpf : processFields fs out (format_key xp k) vis lens with
      | error e2 =>
        simp only [hpf] at h
        injection h with he
        subst he
        exact processFields_ns fs out (format_key xp k) vis lens e2 hpf
      | ok trip =>
        obtain ⟨o3, vis3, lens3⟩ := trip
        simp only [hpf, hc2, Bool.false_eq_true, if_false] at h
        exact Except.noConfusion h
  | .null, out, xp, k, vis, lens, e => fun h => by
    rw [process_array_convertible_objs] at h
    · exact process_ns_scalar_case (.null) out xp k vis lens e h
    all_goals exact fun _ hh => Value.noConfusion hh
  | .bool b, out, xp, k, vis, lens, e => fun h => by
    rw [process_array_convertible_objs] at h
    · exact process_ns_scalar_case (.bool b) out xp k vis lens e h
    all_goals exact fun _ hh => Value.noConfusion hh
  | .num n, out, xp, k, vis, lens, e => fun h => by
    rw [process_array_convertible_objs] at h
    · exact process_ns_scalar_case (.num n) out xp k vis lens e h
    all_goals exact fun _ hh => Value.noConfusion hh
  | .str s, out, xp, k, vis, lens, e => fun h => by
    rw [process_array_convertible_objs] at h
    · exact process_ns_scalar_case (.str s) out xp k vis lens e h
    all_goals exact fun _ hh => Value.noConfusion hh
  | .arr l, out, xp, k, vis, lens, e => fun h => by
    rw [process_array_convertible_objs] at h
    exact process_ns_scalar_case (.arr l) out xp k vis lens e h

theorem processFields_ns : ∀ (fs : List (String × Value)) (out : Value)
    (xp : String) (vis : List String) (lens : List Nat) (e : TError),
    processFields fs out xp vis lens = .error e → isStructural e = false
  | [], out, xp, vis, lens, e => fun h => Except.noConfusion h
  | (k, v) :: rest, out, xp, vis, lens, e => fun h => by
    rw [processFields] at h
    cases hp : process_array_convertible_objs v out xp k vis lens with
    | error e2 =>
      simp only [hp] at h
      injection h with he
      subst he
      exact process_ns v out xp k vis lens e2 hp
    | ok trip =>
      obtain ⟨o2, vis2, lens2⟩ := trip
      simp only [hp] at h
      exact processFields_ns rest o2 xp vis2 lens2 e h

end

theorem transformEntry_good_ns (input : Value) (p : String × Value)
    (fs : List (String × Value)) :
    ∀ e, transformEntry input (.obj (p :: fs)) = .error e →
    isStructural e = false := by
  intro e h
  rw [transformEntry] at h
  cases ht : traverse_mut input (.obj (p :: fs)) "" "" with
  | error e2 =>
    simp only [ht] at h
    injection h with he
    subst he
    exact traverse_ns input (.obj (p :: fs)) "" "" e2 ht
  | ok o1 =>
    simp only [ht] at h
    cases hp : process_array_convertible_objs o1 o1 "" "" [] [] with
    | error e2 =>
      simp only [hp] at h
      injection h with he
      subst he
      exact process_ns o1 o1 "" "" [] [] e2 hp
    | ok trip =>
      obtain ⟨o2, vis2, lens2⟩ := trip
      simp only [hp] at h
      exact Except.noConfusion h

theorem entries_sound (input : Value) :
    ∀ (elems : List Value) (e : TError),
    processEntries input elems = .error e → isStructural e = true →
    ∃ el ∈ elems, badElem el = true := by
  intro elems
  induction elems with
  | nil => intro e h _ ; exact Except.noConfusion h
  | cons el rest ih =>
    intro e h hstruct
    rw [processEntries] at h
    cases hte : transformEntry input el with
    | error e2 =>
      simp only [hte] at h
      injection h with he
      subst he
      cases el with
      | obj fs =>
        cases fs with
        | nil => exact ⟨.obj [], by simp, rfl⟩
        | cons p rest2 =>
          have := transformEntry_good_ns input p rest2 _ hte
          rw [this] at hstruct
          exact Bool.noConfusion hstruct
      | null => exact ⟨.null, by simp, rfl⟩
      | bool b => exact ⟨.bool b, by simp, rfl⟩
      | num n => exact ⟨.num n, by simp, rfl⟩
      | str s => exact ⟨.str s, by simp, rfl⟩
      | arr l => exact ⟨.arr l, by simp, rfl⟩
    | ok e2v =>
      simp only [hte] at h
      cases hpr : processEntries input rest with
      | error e3 =>
        simp only [hpr] at h
        injection h with he
        subst he
        obtain ⟨el2, hmem, hbad⟩ := ih e3 hpr hstruct
        exact ⟨el2, by simp [hmem], hbad⟩
      | ok rs =>
        simp only [hpr] at h
        exact Except.noConfusion h

/-- C7 (counterexample): a template element object with two top-level
keys is accepted — `transform` succeeds on it — contradicting the claim
that such elements are rejected. -/
theorem c7_counterexample :
    transform .null (.arr [.obj [("a", .str (sqs ++ "x" ++ sqs)),
        ("b", .str (sqs ++ "y" ++ sqs))]]) =
      .ok (.arr [.obj [("a", .str "x"), ("b", .str "y")]]) := rfl

/-- C7 (amended): transform produces a structural error only for
top-level malformation — every structural failure implies the template
array contains a non-object or keyless-object element (or the top level
is not an array, which always fails structurally); a single-element
template with such a bad element fails structurally; elements with more
than one key are accepted (see the counterexample). -/
theorem c7_structural_errors :
    (∀ (input : Value) (elems : List Value) (e : TError),
      transform input (.arr elems) = .error e → isStructural e = true →
      ∃ el ∈ elems, badElem el = true) ∧
    (∀ (input tpl : Value), (∀ elems, tpl ≠ .arr elems) →
      transform input tpl = .error .structuralNotArray) ∧
    (∀ (input el : Value), badElem el = true →
      ∃ e, transform input (.arr [el]) = .error e ∧ isStructural e = true) := by
  refine ⟨?_, ?_, ?_⟩
  · intro input elems e h hstruct
    rw [transform] at h
    cases hp : processEntries input elems with
    | error e2 =>
      simp only [hp] at h
      injection h with he
      subst he
      exact entries_sound input elems _ hp hstruct
    | ok rs =>
      simp only [hp] at h
      exact Except.noConfusion h
  · intro input tpl hne
    cases tpl with
    | arr elems => exact absurd rfl (hne elems)
    | null => rfl
    | bool b => rfl
    | num n => rfl
    | str s => rfl
    | obj m => rfl
  · intro input el hbad
    cases el with
    | obj fs =>
      cases fs with
      | nil => exact ⟨.structuralNoKeys, rfl, rfl⟩
      | cons p rest => exact absurd hbad (by simp [badElem])
    | null => exact ⟨.structuralNotObject, rfl, rfl⟩
    | bool b => exact ⟨.structuralNotObject, rfl, rfl⟩
    | num n => exact ⟨.structuralNotObject, rfl, rfl⟩
    | str s => exact ⟨.structuralNotObject, rfl, rfl⟩
    | arr l => exact ⟨.structuralNotObject, rfl, rfl⟩

/-- C7 witness: a non-array template fails structurally; a structural
failure on a one-element template pinpoints the bad element; a keyless
object element fails structurally. -/
theorem c7_witness :
    transform .null (.obj []) = .error .structuralNotArray ∧
    (∃ el ∈ [Value.arr []], badElem el = true) ∧
    (∃ e, transform .null (.arr [.obj []]) = .error e ∧
      isStructural e = true) :=
  ⟨c7_structural_errors.2.1 .null (.obj []) (fun _ h => Value.noConfusion h),
   c7_structural_errors.1 .null [.arr []] .structuralNotObject rfl
     (by decide),
   c7_structural_errors.2.2 .null (.obj []) (by decide)⟩
